import Mathlib

/-!
Verification of the FreeCell rules engine.

This file shallowly embeds the TypeScript game core (card model, Microsoft
FreeCell shuffle, deal builder, move predicates, move application, and the
auto-play policy) as Lean definitions, and proves or refutes the frozen
specification claims about it.  JavaScript 32-bit integer operations are
modelled on `Nat` with explicit reductions modulo powers of two where the
source relies on wraparound.
-/

namespace FreeCell

/-- The four suits, as in `types/card.ts`. -/
inductive Suit
  | hearts | diamonds | clubs | spades
deriving DecidableEq, Repr

/-- The thirteen ranks, as in `types/card.ts`. -/
inductive Rank
  | ace | two | three | four | five | six | seven | eight | nine | ten
  | jack | queen | king
deriving DecidableEq, Repr

/-- String form of a rank, matching the TypeScript string-literal type. -/
def rankStr : Rank → String
  | .ace => "ace" | .two => "2" | .three => "3" | .four => "4" | .five => "5"
  | .six => "6" | .seven => "7" | .eight => "8" | .nine => "9" | .ten => "10"
  | .jack => "jack" | .queen => "queen" | .king => "king"

/-- String form of a suit, matching the TypeScript string-literal type. -/
def suitStr : Suit → String
  | .hearts => "hearts" | .diamonds => "diamonds"
  | .clubs => "clubs" | .spades => "spades"

/-- `createCardId(suit, rank)` from `types/card.ts`: the template string
`rank_of_suit`. -/
def createCardId (suit : Suit) (rank : Rank) : String :=
  rankStr rank ++ "_of_" ++ suitStr suit

/-- A card, as in `types/card.ts`: suit, rank and a string identity. -/
structure Card where
  suit : Suit
  rank : Rank
  id : String
deriving DecidableEq, Repr

/-- Card colors. -/
inductive Color
  | red | black
deriving DecidableEq, Repr

/-- `getCardColor` from `types/card.ts`: hearts and diamonds are red. -/
def getCardColor (suit : Suit) : Color :=
  if suit = Suit.hearts ∨ suit = Suit.diamonds then Color.red else Color.black

/-- `getRankValue` from `types/card.ts`: ace=1 … king=13. -/
def getRankValue : Rank → Nat
  | .ace => 1 | .two => 2 | .three => 3 | .four => 4 | .five => 5
  | .six => 6 | .seven => 7 | .eight => 8 | .nine => 9 | .ten => 10
  | .jack => 11 | .queen => 12 | .king => 13

/-- The suit generation order of `createDeck` (clubs, diamonds, hearts,
spades). -/
def suitsOrder : List Suit := [.clubs, .diamonds, .hearts, .spades]

/-- The rank generation order of `createDeck` (ace up to king). -/
def ranksOrder : List Rank :=
  [.ace, .two, .three, .four, .five, .six, .seven, .eight, .nine, .ten,
   .jack, .queen, .king]

/-- `createDeck` from `game/freecellLogic.ts`: ranks outer loop, suits inner
loop, pushing one card per (rank, suit) pair. -/
def createDeck : List Card :=
  ranksOrder.flatMap (fun rank =>
    suitsOrder.map (fun suit =>
      { suit := suit, rank := rank, id := createCardId suit rank }))

/-! ### The Microsoft FreeCell shuffle (`utils/freecellRng.ts`) -/

/-- One LCG step: `((seed * 214013 + 2531011) & 0xffffffff) >>> 0` in the
source.  On a non-negative JS number this is reduction modulo 2^32, written
here with the source's bitwise mask on `Nat`. -/
def lcgNext (seed : Nat) : Nat :=
  (seed * 214013 + 2531011) &&& 0xffffffff

/-- `(seed >> 16) & 0x7fff` from the source.  The seed is below 2^32, and
JS `>>` reads bits 16..30 of the 32-bit pattern, which on `Nat` is the
shift-and-mask below. -/
def extractRand (seed : Nat) : Nat :=
  (seed >>> 16) &&& 0x7fff

/-- Swap two positions of a list; identity when either index is out of
range.  In the shuffle both indices are always in range. -/
def swapL (l : List α) (i j : Nat) : List α :=
  match l[i]?, l[j]? with
  | some a, some b => (l.set i b).set j a
  | _, _ => l

/-- One iteration of the shuffle loop of `shuffleFreeCellDeck`, acting on
the pair (seed, deck) at loop counter `i`: update the seed, draw `rand`,
pick `rect` (with the source's special branch for deal numbers at or above
2^31) and swap `deck[rect]` with `deck[cardsLeft - 1]`. -/
def shuffleStep (dealNum : Nat) (st : Nat × List α) (i : Nat) : Nat × List α :=
  let deck := st.2
  let cardsLeft := deck.length - i
  let seed2 := lcgNext st.1
  let rand := extractRand seed2
  let rect := if dealNum < 0x80000000 then rand % cardsLeft
              else (rand ||| 0x8000) % cardsLeft
  (seed2, swapL deck rect (cardsLeft - 1))

/-- `shuffleFreeCellDeck` from `utils/freecellRng.ts`: starting from a seed
equal to the deal number, run the loop for `i = 0 .. deck.length - 1`
(swaps preserve the length, so the loop bound equals the original length),
then reverse the deck. -/
def shuffleFreeCellDeck (array : List α) (dealNum : Nat) : List α :=
  (((List.range array.length).foldl (shuffleStep dealNum) (dealNum, array)).2).reverse

/-- One iteration of the shuffle exactly as the specification states it
(claim C1): seed update `seed = (seed * 214013 + 2531011) mod 2^32`, then
`rand = (seed >> 16) & 0x7FFF` read as `(seed / 2^16) mod 2^15`, and
`position = rand mod cardsLeft` — with no special case for large deal
numbers. -/
def specShuffleStep (st : Nat × List α) (i : Nat) : Nat × List α :=
  let deck := st.2
  let cardsLeft := deck.length - i
  let seed2 := (st.1 * 214013 + 2531011) % 2 ^ 32
  let rand := (seed2 / 2 ^ 16) % 2 ^ 15
  let position := rand % cardsLeft
  (seed2, swapL deck position (cardsLeft - 1))

/-- The shuffle algorithm of claim C1: the specified loop followed by a
reversal. -/
def specShuffle (deck : List α) (gameNumber : Nat) : List α :=
  (((List.range deck.length).foldl specShuffleStep (gameNumber, deck)).2).reverse

/-- One iteration of the shuffle as amended for deal numbers at or above
2^31: the position is `(rand | 0x8000) mod cardsLeft` instead. -/
def specShuffleBigStep (st : Nat × List α) (i : Nat) : Nat × List α :=
  let deck := st.2
  let cardsLeft := deck.length - i
  let seed2 := (st.1 * 214013 + 2531011) % 2 ^ 32
  let rand := (seed2 / 2 ^ 16) % 2 ^ 15
  let position := (rand ||| 0x8000) % cardsLeft
  (seed2, swapL deck position (cardsLeft - 1))

/-- The amended shuffle for large deal numbers: loop plus reversal. -/
def specShuffleBig (deck : List α) (gameNumber : Nat) : List α :=
  (((List.range deck.length).foldl specShuffleBigStep (gameNumber, deck)).2).reverse

/-! ### Game state (`types/gameState.ts`) -/

/-- The four foundation piles of `GameState.foundations`, one per suit. -/
structure Foundations where
  hearts : List Card
  diamonds : List Card
  clubs : List Card
  spades : List Card
deriving DecidableEq, Repr

/-- Read the foundation pile of a suit (`foundations[card.suit]`). -/
def Foundations.get (f : Foundations) : Suit → List Card
  | .hearts => f.hearts
  | .diamonds => f.diamonds
  | .clubs => f.clubs
  | .spades => f.spades

/-- Replace the foundation pile of a suit (`foundations[suit] = pile`). -/
def Foundations.setPile (f : Foundations) (s : Suit) (pile : List Card) :
    Foundations :=
  match s with
  | .hearts => { f with hearts := pile }
  | .diamonds => { f with diamonds := pile }
  | .clubs => { f with clubs := pile }
  | .spades => { f with spades := pile }

/-- A pile location as used by the move functions: tableau column 0..7,
free cell 0..3, or foundation 0..3 (foundation indices name suits in the
order hearts, diamonds, clubs, spades). -/
inductive Loc
  | tableau (i : Fin 8)
  | freecell (i : Fin 4)
  | foundation (i : Fin 4)
deriving DecidableEq, Repr

/-- The suit named by a foundation index, per the array
`['hearts', 'diamonds', 'clubs', 'spades']` in the source. -/
def suitOfIndex : Fin 4 → Suit
  | 0 => .hearts
  | 1 => .diamonds
  | 2 => .clubs
  | 3 => .spades

/-- An entry of `GameState.moveHistory` (`Move` in `types/gameState.ts`),
reduced to the card and the two locations; the redundant `type` string is
omitted.  No embedded operation reads or writes history entries. -/
structure Move where
  card : Card
  src : Loc
  dst : Loc
deriving DecidableEq, Repr

/-- `GameState` from `types/gameState.ts`. -/
structure GameState where
  tableau : List (List Card)
  freeCells : List (Option Card)
  foundations : Foundations
  gameNumber : Nat
  moveHistory : List Move
  isWon : Bool
deriving DecidableEq, Repr

/-! ### The deal builder (`dealCards` in `game/freecellLogic.ts`) -/

/-- Hand one row of cards out to the tableau: the j-th card of the row is
appended to the j-th column.  Columns beyond the row's length are left
unchanged. -/
def pushRow : List (List Card) → List Card → List (List Card)
  | t, [] => t
  | [], _ => []
  | col :: t, c :: cs => (col ++ [c]) :: pushRow t cs

/-- The number of cards handed out in each of the seven deal rows: rows
0..5 reach all 8 columns; row 6 skips columns 4..7 and hands out 4. -/
def dealRows : List Nat := [8, 8, 8, 8, 8, 8, 4]

/-- One deal row: push the next `n` cards of the remaining deck onto the
columns, keep the rest. -/
def dealStep (td : List (List Card) × List Card) (n : Nat) :
    List (List Card) × List Card :=
  (pushRow td.1 (td.2.take n), td.2.drop n)

/-- The dealing loop of `dealCards`: row-major distribution of the shuffled
deck (for row 0..6, for column 0..7, skipping row 6 for columns 4..7, push
the next card onto `tableau[column]`), modelled row by row. -/
def dealLoop (d : List Card) : List (List Card) :=
  (dealRows.foldl dealStep (List.replicate 8 [], d)).1

/-- Empty foundations, as initialised by `dealCards`. -/
def emptyFoundations : Foundations :=
  { hearts := [], diamonds := [], clubs := [], spades := [] }

/-- `dealCards` from `game/freecellLogic.ts`: shuffle the canonical deck
with the game number and distribute it row-major; free cells and
foundations start empty, the history is empty and the game is not won. -/
def dealCards (gameNumber : Nat) : GameState :=
  { tableau := dealLoop (shuffleFreeCellDeck createDeck gameNumber)
    freeCells := [none, none, none, none]
    foundations := emptyFoundations
    gameNumber := gameNumber
    moveHistory := []
    isWon := false }

/-- A placeholder card used only as the default value of list lookups that
are always in range. -/
def dummyCard : Card := { suit := .hearts, rank := .ace, id := "" }

/-- The row-major deal layout the specification describes: column `c`
holds the shuffled-deck cards at indices `c`, `8 + c`, … (7 rows for
columns 0..3, 6 rows for columns 4..7). -/
def tableauSpec (d : List Card) : List (List Card) :=
  [[d.getD 0 dummyCard,
    d.getD 8 dummyCard,
    d.getD 16 dummyCard,
    d.getD 24 dummyCard,
    d.getD 32 dummyCard,
    d.getD 40 dummyCard,
    d.getD 48 dummyCard],
   [d.getD 1 dummyCard,
    d.getD 9 dummyCard,
    d.getD 17 dummyCard,
    d.getD 25 dummyCard,
    d.getD 33 dummyCard,
    d.getD 41 dummyCard,
    d.getD 49 dummyCard],
   [d.getD 2 dummyCard,
    d.getD 10 dummyCard,
    d.getD 18 dummyCard,
    d.getD 26 dummyCard,
    d.getD 34 dummyCard,
    d.getD 42 dummyCard,
    d.getD 50 dummyCard],
   [d.getD 3 dummyCard,
    d.getD 11 dummyCard,
    d.getD 19 dummyCard,
    d.getD 27 dummyCard,
    d.getD 35 dummyCard,
    d.getD 43 dummyCard,
    d.getD 51 dummyCard],
   [d.getD 4 dummyCard,
    d.getD 12 dummyCard,
    d.getD 20 dummyCard,
    d.getD 28 dummyCard,
    d.getD 36 dummyCard,
    d.getD 44 dummyCard],
   [d.getD 5 dummyCard,
    d.getD 13 dummyCard,
    d.getD 21 dummyCard,
    d.getD 29 dummyCard,
    d.getD 37 dummyCard,
    d.getD 45 dummyCard],
   [d.getD 6 dummyCard,
    d.getD 14 dummyCard,
    d.getD 22 dummyCard,
    d.getD 30 dummyCard,
    d.getD 38 dummyCard,
    d.getD 46 dummyCard],
   [d.getD 7 dummyCard,
    d.getD 15 dummyCard,
    d.getD 23 dummyCard,
    d.getD 31 dummyCard,
    d.getD 39 dummyCard,
    d.getD 47 dummyCard]]

/-! ### Move predicates (`game/freecellLogic.ts`) -/

/-- `canMoveToTableau` from `game/freecellLogic.ts`: an empty column takes
any card; otherwise the column's bottom-most displayed card (the last of
the list) must be one rank above the card and of the opposite color.  The
source compares `cardValue === targetValue - 1` with exact integers;
`getRankValue` is always at least 1, so truncated subtraction on `Nat`
agrees. -/
def canMoveToTableau (card : Card) (targetColumn : List Card) : Bool :=
  match targetColumn.getLast? with
  | none => true
  | some targetCard =>
    getRankValue card.rank == getRankValue targetCard.rank - 1 &&
    getCardColor card.suit != getCardColor targetCard.suit

/-- `canMoveToFoundation` from `game/freecellLogic.ts`: an ace goes on an
empty pile; otherwise the top card must share the card's suit and sit one
rank below it. -/
def canMoveToFoundation (card : Card) (foundation : List Card) : Bool :=
  match foundation.getLast? with
  | none => card.rank == Rank.ace
  | some topCard =>
    card.suit == topCard.suit &&
    getRankValue card.rank == getRankValue topCard.rank + 1

/-- `getMaxMovableCards` from `game/freecellLogic.ts`:
`(1 + emptyFreeCells) * 2^effectiveEmptyColumns`, where one empty column is
discounted when `excludeTargetColumn` is set.  `Math.max(0, n - 1)` on
non-negative integers is truncated subtraction on `Nat`. -/
def getMaxMovableCards (emptyFreeCells emptyColumns : Nat)
    (excludeTargetColumn : Bool) : Nat :=
  (1 + emptyFreeCells) *
    2 ^ (if excludeTargetColumn then emptyColumns - 1 else emptyColumns)

/-- The run check inside `canMoveCardSequence`: every adjacent pair of the
sequence satisfies `canMoveToTableau(next, [current])`, with failures
short-circuiting as in the source loop. -/
def validRun : List Card → Bool
  | [] => true
  | [_] => true
  | a :: b :: rest => canMoveToTableau b [a] && validRun (b :: rest)

/-- `canMoveCardSequence` from `game/freecellLogic.ts`: the cards from
`startIndex` on must form a valid run, and their number must not exceed
`getMaxMovableCards` of the state's empty free cells and empty columns â
called with `excludeTargetColumn = true` unconditionally. -/
def canMoveCardSequence (sourceColumn : List Card) (startIndex : Nat)
    (gameState : GameState) : Bool :=
  let cardsToMove := sourceColumn.drop startIndex
  validRun cardsToMove &&
    decide (cardsToMove.length ≤
      getMaxMovableCards
        ((gameState.freeCells.filter (fun cell => cell == none)).length)
        ((gameState.tableau.filter (fun col => col.length == 0)).length)
        true)

/-- A descending-alternating-color run as the specification words it:
every adjacent pair of the sequence satisfies the tableau-stacking rule. -/
def specRun (cards : List Card) : Bool :=
  (cards.zip cards.tail).all (fun p => canMoveToTableau p.2 [p.1])

/-- The movable-sequence predicate exactly as claim C6 states it, with the
destination made explicit: the dropped suffix is a valid
descending-alternating run and its length is within
`(1 + emptyFreeCells) * 2^effectiveEmptyColumns`, where one empty column is
discounted exactly when the destination is itself an empty column. -/
def specCanMoveSeq (sourceColumn : List Card) (startIndex : Nat)
    (gameState : GameState) (destIsEmptyColumn : Bool) : Bool :=
  let cardsToMove := sourceColumn.drop startIndex
  specRun cardsToMove &&
    decide (cardsToMove.length ≤
      (1 + (gameState.freeCells.filter (fun cell => cell == none)).length) *
        2 ^ (if destIsEmptyColumn then
              ((gameState.tableau.filter (fun col => col.length == 0)).length) - 1
            else
              (gameState.tableau.filter (fun col => col.length == 0)).length))

/-- Build a card from suit and rank with its canonical identity. -/
def mkCard (s : Suit) (r : Rank) : Card :=
  { suit := s, rank := r, id := createCardId s r }

/-- A concrete position with no free cell empty and exactly one empty
tableau column, whose first column ends in the valid two-card run 5♠ 4♥. -/
def c6State : GameState :=
  { tableau := [[mkCard .spades .five, mkCard .hearts .four], [],
      [mkCard .clubs .king], [mkCard .clubs .queen], [mkCard .clubs .jack],
      [mkCard .clubs .ten], [mkCard .clubs .nine], [mkCard .clubs .eight]]
    freeCells := [some (mkCard .diamonds .king), some (mkCard .diamonds .queen),
      some (mkCard .diamonds .jack), some (mkCard .diamonds .ten)]
    foundations := emptyFoundations
    gameNumber := 1
    moveHistory := []
    isWon := false }

/-! ### Move application (`performMove` in `hooks/useCardAnimation.ts`) -/

/-- The card on top of a location: the occupant of a free cell, or the last
card of a tableau column or foundation pile (`none` when empty, which makes
`performMove` bail out). -/
def topOf (s : GameState) : Loc → Option Card
  | .freecell i => s.freeCells.getD i.val none
  | .foundation i => (s.foundations.get (suitOfIndex i)).getLast?
  | .tableau i => (s.tableau.getD i.val []).getLast?

/-- The remove-from-source arm of `performMove`: a free cell is cleared,
a tableau column or foundation pile loses its last card
(`slice(0, -1)`). -/
def removeTop (s : GameState) : Loc → GameState
  | .freecell i => { s with freeCells := s.freeCells.set i.val none }
  | .foundation i =>
    { s with foundations := (s.foundations.setPile (suitOfIndex i)
        ((s.foundations.get (suitOfIndex i)).dropLast)) }
  | .tableau i =>
    { s with tableau := (s.tableau.set i.val
        ((s.tableau.getD i.val []).dropLast)) }

/-- Append a card to a foundation pile
(`[...newState.foundations[suit], card]`). -/
def addToFoundation (s : GameState) (su : Suit) (c : Card) : GameState :=
  { s with foundations := s.foundations.setPile su (s.foundations.get su ++ [c]) }

/-- The add-to-destination arm of `performMove`: place the card into the
free cell, or append it to the tableau column or foundation pile. -/
def addCardTo (s : GameState) : Loc → Card → GameState
  | .freecell i, c => { s with freeCells := s.freeCells.set i.val (some c) }
  | .foundation i, c => addToFoundation s (suitOfIndex i) c
  | .tableau i, c =>
    { s with tableau := s.tableau.set i.val (s.tableau.getD i.val [] ++ [c]) }

/-- `performMove` from `hooks/useCardAnimation.ts`: take the top card of
the source (bailing out with `null` when the source is empty), check the
destination's acceptance rule against the unmodified state, and on success
remove the card from the source and append it to the destination; `none`
models the source's `null` return for an invalid move, on which callers
keep the input state unchanged. -/
def performMove (state : GameState) (fromLoc toLoc : Loc) : Option GameState :=
  match topOf state fromLoc with
  | none => none
  | some cardToMove =>
    match toLoc with
    | .foundation j =>
      if canMoveToFoundation cardToMove (state.foundations.get (suitOfIndex j))
      then some (addCardTo (removeTop state fromLoc) (.foundation j) cardToMove)
      else none
    | .tableau j =>
      if canMoveToTableau cardToMove (state.tableau.getD j.val [])
      then some (addCardTo (removeTop state fromLoc) (.tableau j) cardToMove)
      else none
    | .freecell j =>
      if (state.freeCells.getD j.val none).isNone
      then some (addCardTo (removeTop state fromLoc) (.freecell j) cardToMove)
      else none

/-- The observable content of a location as a list of cards (a free cell is
the empty or singleton list of its occupant). -/
def pileAt (s : GameState) : Loc → List Card
  | .freecell i => (s.freeCells.getD i.val none).toList
  | .foundation i => s.foundations.get (suitOfIndex i)
  | .tableau i => s.tableau.getD i.val []

/-- The shape every state of the application has: exactly 4 free-cell slots
and 8 tableau columns. -/
def wellShaped (s : GameState) : Prop :=
  s.freeCells.length = 4 ∧ s.tableau.length = 8

/-! ### Auto-play (`tryAutoPlaySingleCard` in `hooks/useAutoPlay.ts`) -/

/-- `MIN_GAME_NUMBER` from `constants.ts` (the source reuses this constant
as the rank offset 1 in the auto-play safety check). -/
def MIN_GAME_NUMBER : Nat := 1

/-- `AUTO_MOVE_SAFE_RANK_OFFSET` from `constants.ts`. -/
def AUTO_MOVE_SAFE_RANK_OFFSET : Nat := 2

/-- `getMinOppositeColorRank` from `hooks/useAutoPlay.ts`: the smaller
length of the two foundations of the opposite color. -/
def getMinOppositeColorRank (s : GameState) (suit : Suit) : Nat :=
  if suit = Suit.hearts ∨ suit = Suit.diamonds then
    min (s.foundations.get Suit.clubs).length (s.foundations.get Suit.spades).length
  else
    min (s.foundations.get Suit.hearts).length (s.foundations.get Suit.diamonds).length

/-- `isSafeToAutoMove` from `hooks/useAutoPlay.ts`: the card is the next
needed rank of its suit and within 2 of the minimum opposite-color
foundation rank. -/
def isSafeToAutoMove (s : GameState) (card : Card) : Bool :=
  (getRankValue card.rank ==
    (s.foundations.get card.suit).length + MIN_GAME_NUMBER) &&
  decide (getRankValue card.rank ≤
    getMinOppositeColorRank s card.suit + AUTO_MOVE_SAFE_RANK_OFFSET)

/-- The free-cell loop of `tryAutoPlaySingleCard`: first index (from `i`)
whose occupant may legally and safely go to its foundation. -/
def cellFind (s : GameState) : Nat → List (Option Card) → Option (Nat × Card)
  | _, [] => none
  | i, c? :: rest =>
    match c? with
    | some card =>
      if canMoveToFoundation card (s.foundations.get card.suit) &&
          isSafeToAutoMove s card
      then some (i, card)
      else cellFind s (i + 1) rest
    | none => cellFind s (i + 1) rest

/-- The tableau loop of `tryAutoPlaySingleCard`: first column (from `i`)
whose last card may legally and safely go to its foundation. -/
def colFind (s : GameState) : Nat → List (List Card) → Option (Nat × Card)
  | _, [] => none
  | i, col :: rest =>
    match col.getLast? with
    | some card =>
      if canMoveToFoundation card (s.foundations.get card.suit) &&
          isSafeToAutoMove s card
      then some (i, card)
      else colFind s (i + 1) rest
    | none => colFind s (i + 1) rest

/-- `tryAutoPlaySingleCard` from `hooks/useAutoPlay.ts`: scan the free
cells left to right, then the tableau columns left to right, and promote
the first legal-and-safe card to its foundation; if none qualifies the
input state is returned unchanged. -/
def tryAutoPlaySingleCard (s : GameState) : GameState :=
  match cellFind s 0 s.freeCells with
  | some (i, card) =>
    addToFoundation { s with freeCells := s.freeCells.set i none } card.suit card
  | none =>
    match colFind s 0 s.tableau with
    | some (i, card) =>
      addToFoundation
        { s with tableau := (s.tableau.set i ((s.tableau.getD i []).dropLast)) }
        card.suit card
    | none => s

/-- A source position of an automatic move, as the specification describes
`findAutoMove`: a free cell or a tableau column. -/
inductive AutoSrc
  | cell (i : Nat)
  | col (i : Nat)
deriving DecidableEq, Repr

/-- The auto-play scan order of the specification: the occupied free cells
left to right, then the non-empty tableau columns (represented by their
last card) left to right. -/
def autoCandidates (s : GameState) : List (AutoSrc × Card) :=
  (s.freeCells.enum.filterMap fun p =>
    match p.2 with
    | some c => some (AutoSrc.cell p.1, c)
    | none => none) ++
  (s.tableau.enum.filterMap fun p =>
    (p.2.getLast?).map fun c => (AutoSrc.col p.1, c))

/-- A candidate qualifies when it is a legal foundation move and safe. -/
def autoQualifies (s : GameState) (c : Card) : Bool :=
  canMoveToFoundation c (s.foundations.get c.suit) && isSafeToAutoMove s c

/-- `findAutoMove` as the specification describes it: the first qualifying
card in the fixed scan order. -/
def findAutoMove (s : GameState) : Option (AutoSrc × Card) :=
  (autoCandidates s).find? (fun p => autoQualifies s p.2)

/-- Promote a card from its auto-move source to its foundation. -/
def promote (s : GameState) : AutoSrc → Card → GameState
  | .cell i, c =>
    addToFoundation { s with freeCells := s.freeCells.set i none } c.suit c
  | .col i, c =>
    addToFoundation
      { s with tableau := (s.tableau.set i ((s.tableau.getD i []).dropLast)) }
      c.suit c

/-- A position whose only card is an ace of hearts parked in the first
free cell, which auto-play must promote. -/
def c5State : GameState :=
  { tableau := [[], [], [], [], [], [], [], []]
    freeCells := [some (mkCard .hearts .ace), none, none, none]
    foundations := emptyFoundations
    gameNumber := 1
    moveHistory := []
    isWon := false }

/-! ### Drag-and-drop move application (`tryMove` in `hooks/useDragAndDrop.ts`) -/

/-- `tryMove` from `hooks/useDragAndDrop.ts`: given the dragged card, its
claimed source location and the drop target, update the state when the
move is accepted; `none` models "moved stayed false", on which the hook
performs no state update.  The source identity-checks the claimed card
against the actual top card / occupant by its `id` before removing it.
Moves from a free cell to a free cell and from a foundation to a
foundation have no removal branch in the source and never update. -/
def tryMove (s : GameState) (card : Card) (fromLoc : Loc) : Loc → Option GameState
  | .tableau j =>
    let targetColumn := s.tableau.getD j.val []
    if canMoveToTableau card targetColumn then
      match fromLoc with
      | .tableau i =>
        let sourceColumn := s.tableau.getD i.val []
        if (sourceColumn.getLast?.map Card.id) == some card.id then
          some { s with tableau := ((s.tableau.set i.val sourceColumn.dropLast).set
                  j.val (targetColumn ++ [card])) }
        else none
      | .freecell i =>
        match s.freeCells.getD i.val none with
        | some c2 =>
          if c2.id == card.id then
            some { s with freeCells := s.freeCells.set i.val none
                          tableau := (s.tableau.set j.val (targetColumn ++ [card])) }
          else none
        | none => none
      | .foundation i =>
        let foundation := s.foundations.get (suitOfIndex i)
        if (foundation.getLast?.map Card.id) == some card.id then
          some { s with foundations := (s.foundations.setPile (suitOfIndex i)
                          foundation.dropLast)
                        tableau := (s.tableau.set j.val (targetColumn ++ [card])) }
        else none
    else none
  | .freecell j =>
    if s.freeCells.getD j.val none == none then
      match fromLoc with
      | .tableau i =>
        let sourceColumn := s.tableau.getD i.val []
        if (sourceColumn.getLast?.map Card.id) == some card.id then
          some { s with tableau := (s.tableau.set i.val sourceColumn.dropLast)
                        freeCells := (s.freeCells.set j.val (some card)) }
        else none
      | .foundation i =>
        let foundation := s.foundations.get (suitOfIndex i)
        if (foundation.getLast?.map Card.id) == some card.id then
          some { s with foundations := (s.foundations.setPile (suitOfIndex i)
                          foundation.dropLast)
                        freeCells := (s.freeCells.set j.val (some card)) }
        else none
      | .freecell _ => none
    else none
  | .foundation j =>
    let pile := s.foundations.get (suitOfIndex j)
    if canMoveToFoundation card pile then
      match fromLoc with
      | .tableau i =>
        let sourceColumn := s.tableau.getD i.val []
        if (sourceColumn.getLast?.map Card.id) == some card.id then
          some { s with tableau := (s.tableau.set i.val sourceColumn.dropLast)
                        foundations := (s.foundations.setPile (suitOfIndex j)
                          (pile ++ [card])) }
        else none
      | .freecell i =>
        match s.freeCells.getD i.val none with
        | some c2 =>
          if c2.id == card.id then
            some { s with freeCells := s.freeCells.set i.val none
                          foundations := (s.foundations.setPile (suitOfIndex j)
                            (pile ++ [card])) }
          else none
        | none => none
      | .foundation _ => none
    else none

/-! ### The well-formedness invariant (claim C4) -/

/-- All cards on the board, in a fixed traversal order: tableau columns,
occupied free cells, then the four foundation piles. -/
def stateCardList (s : GameState) : List Card :=
  s.tableau.flatten ++ s.freeCells.filterMap id ++
    s.foundations.hearts ++ s.foundations.diamonds ++
    s.foundations.clubs ++ s.foundations.spades

/-- A legal foundation pile: the card at index `i` has rank value `i + 1`
(so a non-empty pile is a contiguous ascending run starting at the ace and
its top card's rank equals the pile's length), and all its cards share one
suit. -/
def foundationOk (pile : List Card) : Prop :=
  (∀ i, ∀ h : i < pile.length, getRankValue (pile.get ⟨i, h⟩).rank = i + 1) ∧
  (∀ c1 ∈ pile, ∀ c2 ∈ pile, c1.suit = c2.suit)

/-- The well-formedness invariant of claim C4: the cards on the board are
exactly the 52 cards of the canonical deck (each in exactly one location),
and every foundation pile is legal. -/
def WellFormed (s : GameState) : Prop :=
  List.Perm (stateCardList s) createDeck ∧
  ∀ su : Suit, foundationOk (s.foundations.get su)

/-- The foundation index of a suit (inverse of `suitOfIndex`). -/
def indexOfSuit : Suit → Fin 4
  | .hearts => 0
  | .diamonds => 1
  | .clubs => 2
  | .spades => 3

/-! ### Basic facts about the shuffle -/

theorem lcgNext_eq (seed : Nat) :
    lcgNext seed = (seed * 214013 + 2531011) % 2 ^ 32 :=
  Nat.and_pow_two_sub_one_eq_mod _ 32

theorem extractRand_eq (seed : Nat) :
    extractRand seed = (seed / 2 ^ 16) % 2 ^ 15 := by
  unfold extractRand
  rw [Nat.shiftRight_eq_div_pow]
  exact Nat.and_pow_two_sub_one_eq_mod _ 15

/-- Swapping two entries of a list is a permutation. -/
theorem swapL_perm [DecidableEq α] (l : List α) (i j : Nat) :
    List.Perm (swapL l i j) l := by
  unfold swapL
  cases hi : l[i]? with
  | none => exact List.Perm.refl l
  | some a =>
    cases hj : l[j]? with
    | none => exact List.Perm.refl l
    | some b =>
      rw [List.getElem?_eq_some] at hi hj
      obtain ⟨hil, hia⟩ := hi
      obtain ⟨hjl, hjb⟩ := hj
      rw [List.perm_iff_count]
      intro x
      have hjl' : j < (l.set i b).length := by simpa using hjl
      have hsetj : (l.set i b)[j] = b := by
        rcases eq_or_ne i j with rfl | hne
        · rw [List.getElem_set_self]
        · rw [List.getElem_set_ne hne, hjb]
      rw [List.count_set _ _ _ _ hjl', hsetj, List.count_set _ _ _ _ hil, hia]
      have hcount : (a == x) = true → 1 ≤ l.count x := by
        intro h
        have hax : a = x := by simpa using h
        subst hax
        exact List.count_pos_iff.mpr (hia ▸ List.getElem_mem hil)
      cases ha : a == x <;> cases hb : b == x <;> simp_all

/-- The shuffle loop permutes the deck, whatever the parameters. -/
theorem shuffleFold_perm [DecidableEq α] (dealNum : Nat) (rng : List Nat) :
    ∀ st : Nat × List α,
      List.Perm ((rng.foldl (shuffleStep dealNum) st).2) st.2 := by
  induction rng with
  | nil => intro st; exact List.Perm.refl _
  | cons i rest ih =>
    intro st
    rw [List.foldl_cons]
    exact (ih (shuffleStep dealNum st i)).trans
      (show List.Perm (shuffleStep dealNum st i).2 st.2 from swapL_perm ..)

/-- A shuffle iteration of the code equals an iteration of the specified
algorithm whenever the deal number is below 2^31. -/
theorem shuffleStep_eq_spec (dealNum : Nat) (h : dealNum < 0x80000000)
    (st : Nat × List α) (i : Nat) :
    shuffleStep dealNum st i = specShuffleStep st i := by
  unfold shuffleStep specShuffleStep
  simp only [if_pos h, lcgNext_eq, extractRand_eq]

/-- A shuffle iteration of the code equals an iteration of the amended
algorithm whenever the deal number is at least 2^31. -/
theorem shuffleStep_eq_specBig (dealNum : Nat) (h : 0x80000000 ≤ dealNum)
    (st : Nat × List α) (i : Nat) :
    shuffleStep dealNum st i = specShuffleBigStep st i := by
  unfold shuffleStep specShuffleBigStep
  simp only [if_neg (Nat.not_lt.mpr h), lcgNext_eq, extractRand_eq]

/-- The shuffle is a permutation of its input. -/
theorem shuffleFreeCellDeck_perm [DecidableEq α] (deck : List α) (g : Nat) :
    List.Perm (shuffleFreeCellDeck deck g) deck :=
  (List.reverse_perm _).trans (shuffleFold_perm g (List.range deck.length) (g, deck))

/-- The shuffle preserves the length of the deck. -/
theorem shuffleFreeCellDeck_length (deck : List α) [DecidableEq α] (g : Nat) :
    (shuffleFreeCellDeck deck g).length = deck.length :=
  (shuffleFreeCellDeck_perm deck g).length_eq

set_option maxRecDepth 100000 in
/-- C1, counterexample: at `gameNumber = 2^31` (a non-negative 32-bit
integer) the code's shuffle does not compute the algorithm the claim
specifies, because the code switches to `(rand | 0x8000) % cardsLeft` for
deal numbers at or above 2^31. -/
theorem c1_counterexample :
    shuffleFreeCellDeck (List.range 52) 2147483648 ≠
      specShuffle (List.range 52) 2147483648 := by
  decide

/-- C1, amended: for game numbers below 2^31 the shuffle computes exactly
the algorithm the claim specifies; for 32-bit game numbers at or above 2^31
the position is `(rand | 0x8000) mod cardsLeft` instead.  The shuffle is a
total pure function of its arguments (so equal game numbers give equal
outputs by reflexivity) and always yields a permutation of the deck. -/
theorem c1_theorem [DecidableEq α] (deck : List α) (gameNumber : Nat) :
    (gameNumber < 2 ^ 31 →
      shuffleFreeCellDeck deck gameNumber = specShuffle deck gameNumber) ∧
    (2 ^ 31 ≤ gameNumber →
      shuffleFreeCellDeck deck gameNumber = specShuffleBig deck gameNumber) ∧
    List.Perm (shuffleFreeCellDeck deck gameNumber) deck := by
  refine ⟨fun h => ?_, fun h => ?_, shuffleFreeCellDeck_perm deck gameNumber⟩
  · unfold shuffleFreeCellDeck specShuffle
    rw [List.foldl_ext _ _ _ (fun st i _ => shuffleStep_eq_spec gameNumber h st i)]
  · unfold shuffleFreeCellDeck specShuffleBig
    rw [List.foldl_ext _ _ _ (fun st i _ => shuffleStep_eq_specBig gameNumber h st i)]

/-- C1 witness: the amended statement applied at game numbers 164 and 2^31
on a concrete five-element deck. -/
theorem c1_witness :
    shuffleFreeCellDeck (List.range 5) 164 = specShuffle (List.range 5) 164 ∧
    shuffleFreeCellDeck (List.range 5) 2147483648 =
      specShuffleBig (List.range 5) 2147483648 :=
  ⟨(c1_theorem (List.range 5) 164).1 (by decide),
   (c1_theorem (List.range 5) 2147483648).2.1 (by decide)⟩

/-! ### The deal (claims C2 and C3) -/

/-- Destructure a list of known successor length. -/
theorem exists_cons_of_len (l : List α) (n : Nat) (h : l.length = n + 1) :
    ∃ a t, l = a :: t ∧ t.length = n := by
  cases l with
  | nil => simp at h
  | cons a t => exact ⟨a, t, rfl, by simpa using h⟩

/-- The canonical deck has 52 cards. -/
theorem createDeck_length : createDeck.length = 52 := rfl

set_option maxRecDepth 200000 in
/-- Dealing-loop layout lemma, last 13 cards destructed. -/
theorem dealLoop_eq_aux3 (a0 a1 a2 a3 a4 a5 a6 a7 a8 a9 a10 a11 a12 a13 a14 a15 a16 a17 a18 a19 a20 a21 a22 a23 a24 a25 a26 a27 a28 a29 a30 a31 a32 a33 a34 a35 a36 a37 a38 : Card)
    (d : List Card) (h : d.length = 13) :
    dealLoop (a0 :: a1 :: a2 :: a3 :: a4 :: a5 :: a6 :: a7 :: a8 :: a9 :: a10 :: a11 :: a12 :: a13 :: a14 :: a15 :: a16 :: a17 :: a18 :: a19 :: a20 :: a21 :: a22 :: a23 :: a24 :: a25 :: a26 :: a27 :: a28 :: a29 :: a30 :: a31 :: a32 :: a33 :: a34 :: a35 :: a36 :: a37 :: a38 :: d) = tableauSpec (a0 :: a1 :: a2 :: a3 :: a4 :: a5 :: a6 :: a7 :: a8 :: a9 :: a10 :: a11 :: a12 :: a13 :: a14 :: a15 :: a16 :: a17 :: a18 :: a19 :: a20 :: a21 :: a22 :: a23 :: a24 :: a25 :: a26 :: a27 :: a28 :: a29 :: a30 :: a31 :: a32 :: a33 :: a34 :: a35 :: a36 :: a37 :: a38 :: d) := by
  obtain ⟨a39, d, rfl, h40⟩ := exists_cons_of_len d 12 h
  obtain ⟨a40, d, rfl, h41⟩ := exists_cons_of_len d 11 h40
  obtain ⟨a41, d, rfl, h42⟩ := exists_cons_of_len d 10 h41
  obtain ⟨a42, d, rfl, h43⟩ := exists_cons_of_len d 9 h42
  obtain ⟨a43, d, rfl, h44⟩ := exists_cons_of_len d 8 h43
  obtain ⟨a44, d, rfl, h45⟩ := exists_cons_of_len d 7 h44
  obtain ⟨a45, d, rfl, h46⟩ := exists_cons_of_len d 6 h45
  obtain ⟨a46, d, rfl, h47⟩ := exists_cons_of_len d 5 h46
  obtain ⟨a47, d, rfl, h48⟩ := exists_cons_of_len d 4 h47
  obtain ⟨a48, d, rfl, h49⟩ := exists_cons_of_len d 3 h48
  obtain ⟨a49, d, rfl, h50⟩ := exists_cons_of_len d 2 h49
  obtain ⟨a50, d, rfl, h51⟩ := exists_cons_of_len d 1 h50
  obtain ⟨a51, d, rfl, h52⟩ := exists_cons_of_len d 0 h51
  obtain rfl := List.eq_nil_of_length_eq_zero h52
  rfl

/-- Dealing-loop layout lemma, cards 27-39 destructed. -/
theorem dealLoop_eq_aux2 (a0 a1 a2 a3 a4 a5 a6 a7 a8 a9 a10 a11 a12 a13 a14 a15 a16 a17 a18 a19 a20 a21 a22 a23 a24 a25 : Card)
    (d : List Card) (h : d.length = 26) :
    dealLoop (a0 :: a1 :: a2 :: a3 :: a4 :: a5 :: a6 :: a7 :: a8 :: a9 :: a10 :: a11 :: a12 :: a13 :: a14 :: a15 :: a16 :: a17 :: a18 :: a19 :: a20 :: a21 :: a22 :: a23 :: a24 :: a25 :: d) = tableauSpec (a0 :: a1 :: a2 :: a3 :: a4 :: a5 :: a6 :: a7 :: a8 :: a9 :: a10 :: a11 :: a12 :: a13 :: a14 :: a15 :: a16 :: a17 :: a18 :: a19 :: a20 :: a21 :: a22 :: a23 :: a24 :: a25 :: d) := by
  obtain ⟨a26, d, rfl, h27⟩ := exists_cons_of_len d 25 h
  obtain ⟨a27, d, rfl, h28⟩ := exists_cons_of_len d 24 h27
  obtain ⟨a28, d, rfl, h29⟩ := exists_cons_of_len d 23 h28
  obtain ⟨a29, d, rfl, h30⟩ := exists_cons_of_len d 22 h29
  obtain ⟨a30, d, rfl, h31⟩ := exists_cons_of_len d 21 h30
  obtain ⟨a31, d, rfl, h32⟩ := exists_cons_of_len d 20 h31
  obtain ⟨a32, d, rfl, h33⟩ := exists_cons_of_len d 19 h32
  obtain ⟨a33, d, rfl, h34⟩ := exists_cons_of_len d 18 h33
  obtain ⟨a34, d, rfl, h35⟩ := exists_cons_of_len d 17 h34
  obtain ⟨a35, d, rfl, h36⟩ := exists_cons_of_len d 16 h35
  obtain ⟨a36, d, rfl, h37⟩ := exists_cons_of_len d 15 h36
  obtain ⟨a37, d, rfl, h38⟩ := exists_cons_of_len d 14 h37
  obtain ⟨a38, d, rfl, h39⟩ := exists_cons_of_len d 13 h38
  exact dealLoop_eq_aux3 a0 a1 a2 a3 a4 a5 a6 a7 a8 a9 a10 a11 a12 a13 a14 a15 a16 a17 a18 a19 a20 a21 a22 a23 a24 a25 a26 a27 a28 a29 a30 a31 a32 a33 a34 a35 a36 a37 a38 d h39

/-- Dealing-loop layout lemma, cards 14-26 destructed. -/
theorem dealLoop_eq_aux1 (a0 a1 a2 a3 a4 a5 a6 a7 a8 a9 a10 a11 a12 : Card)
    (d : List Card) (h : d.length = 39) :
    dealLoop (a0 :: a1 :: a2 :: a3 :: a4 :: a5 :: a6 :: a7 :: a8 :: a9 :: a10 :: a11 :: a12 :: d) = tableauSpec (a0 :: a1 :: a2 :: a3 :: a4 :: a5 :: a6 :: a7 :: a8 :: a9 :: a10 :: a11 :: a12 :: d) := by
  obtain ⟨a13, d, rfl, h14⟩ := exists_cons_of_len d 38 h
  obtain ⟨a14, d, rfl, h15⟩ := exists_cons_of_len d 37 h14
  obtain ⟨a15, d, rfl, h16⟩ := exists_cons_of_len d 36 h15
  obtain ⟨a16, d, rfl, h17⟩ := exists_cons_of_len d 35 h16
  obtain ⟨a17, d, rfl, h18⟩ := exists_cons_of_len d 34 h17
  obtain ⟨a18, d, rfl, h19⟩ := exists_cons_of_len d 33 h18
  obtain ⟨a19, d, rfl, h20⟩ := exists_cons_of_len d 32 h19
  obtain ⟨a20, d, rfl, h21⟩ := exists_cons_of_len d 31 h20
  obtain ⟨a21, d, rfl, h22⟩ := exists_cons_of_len d 30 h21
  obtain ⟨a22, d, rfl, h23⟩ := exists_cons_of_len d 29 h22
  obtain ⟨a23, d, rfl, h24⟩ := exists_cons_of_len d 28 h23
  obtain ⟨a24, d, rfl, h25⟩ := exists_cons_of_len d 27 h24
  obtain ⟨a25, d, rfl, h26⟩ := exists_cons_of_len d 26 h25
  exact dealLoop_eq_aux2 a0 a1 a2 a3 a4 a5 a6 a7 a8 a9 a10 a11 a12 a13 a14 a15 a16 a17 a18 a19 a20 a21 a22 a23 a24 a25 d h26

/-- On a 52-card deck the dealing loop produces exactly the row-major
layout. -/
theorem dealLoop_eq (d : List Card) (h0 : d.length = 52) :
    dealLoop d = tableauSpec d := by
  obtain ⟨a0, d, rfl, h1⟩ := exists_cons_of_len d 51 h0
  obtain ⟨a1, d, rfl, h2⟩ := exists_cons_of_len d 50 h1
  obtain ⟨a2, d, rfl, h3⟩ := exists_cons_of_len d 49 h2
  obtain ⟨a3, d, rfl, h4⟩ := exists_cons_of_len d 48 h3
  obtain ⟨a4, d, rfl, h5⟩ := exists_cons_of_len d 47 h4
  obtain ⟨a5, d, rfl, h6⟩ := exists_cons_of_len d 46 h5
  obtain ⟨a6, d, rfl, h7⟩ := exists_cons_of_len d 45 h6
  obtain ⟨a7, d, rfl, h8⟩ := exists_cons_of_len d 44 h7
  obtain ⟨a8, d, rfl, h9⟩ := exists_cons_of_len d 43 h8
  obtain ⟨a9, d, rfl, h10⟩ := exists_cons_of_len d 42 h9
  obtain ⟨a10, d, rfl, h11⟩ := exists_cons_of_len d 41 h10
  obtain ⟨a11, d, rfl, h12⟩ := exists_cons_of_len d 40 h11
  obtain ⟨a12, d, rfl, h13⟩ := exists_cons_of_len d 39 h12
  exact dealLoop_eq_aux1 a0 a1 a2 a3 a4 a5 a6 a7 a8 a9 a10 a11 a12 d h13

set_option maxRecDepth 200000 in
/-- C2, counterexample: tableau column 1 (index 0) of `dealCards 164` is
not the sequence 4♦ 2♥ 9♠ 6♣ 10♠ 8♠ 3♥ the claim states. -/
theorem c2_counterexample :
    ((dealCards 164).tableau.getD 0 []).map (fun c => (c.rank, c.suit)) ≠
      [(Rank.four, Suit.diamonds), (Rank.two, Suit.hearts),
       (Rank.nine, Suit.spades), (Rank.six, Suit.clubs),
       (Rank.ten, Suit.spades), (Rank.eight, Suit.spades),
       (Rank.three, Suit.hearts)] := by
  decide

set_option maxRecDepth 200000 in
/-- C2, amended: `dealCards 164` produces the authoritative Microsoft deal
for game #164 — tableau column 1 (index 0) is, top of deal first,
A♥ A♠ 5♠ A♦ 5♥ 2♠ 6♠, and tableau column 8 (index 7) is
8♦ 2♦ J♣ J♦ 4♦ 5♣, so its last two cards are 4♦ 5♣. -/
theorem c2_theorem :
    ((dealCards 164).tableau.getD 0 []).map (fun c => (c.rank, c.suit)) =
      [(Rank.ace, Suit.hearts), (Rank.ace, Suit.spades),
       (Rank.five, Suit.spades), (Rank.ace, Suit.diamonds),
       (Rank.five, Suit.hearts), (Rank.two, Suit.spades),
       (Rank.six, Suit.spades)] ∧
    ((dealCards 164).tableau.getD 7 []).map (fun c => (c.rank, c.suit)) =
      [(Rank.eight, Suit.diamonds), (Rank.two, Suit.diamonds),
       (Rank.jack, Suit.clubs), (Rank.jack, Suit.diamonds),
       (Rank.four, Suit.diamonds), (Rank.five, Suit.clubs)] := by
  constructor <;> decide

set_option maxRecDepth 200000 in
/-- C3: for every game number, the deal distributes the shuffled deck
row-major (column `c` holds the cards at shuffled-deck indices `c`,
`8 + c`, …, with row 6 skipped for columns 4..7), columns 0-3 hold 7 cards
and columns 4-7 hold 6, the free cells and foundations start empty,
`isWon` is false, and the deal is deterministic in the game number. -/
theorem c3_theorem (g : Nat) :
    (dealCards g).tableau = tableauSpec (shuffleFreeCellDeck createDeck g) ∧
    (dealCards g).tableau.map List.length = [7, 7, 7, 7, 6, 6, 6, 6] ∧
    (dealCards g).freeCells = [none, none, none, none] ∧
    (dealCards g).foundations = emptyFoundations ∧
    (dealCards g).isWon = false ∧
    ∀ g2, g2 = g → dealCards g2 = dealCards g := by
  have h52 : (shuffleFreeCellDeck createDeck g).length = 52 := by
    rw [shuffleFreeCellDeck_length, createDeck_length]
  have htab := dealLoop_eq (shuffleFreeCellDeck createDeck g) h52
  simp only [dealCards]
  refine ⟨htab, ?_, trivial, trivial, trivial, fun g2 hg => by rw [hg]⟩
  rw [htab]
  rfl

/-- C3 witness: the deal characterisation applied at game number 1, with
the determinism hypothesis discharged at `g2 = 1`. -/
theorem c3_witness :
    (dealCards 1).tableau = tableauSpec (shuffleFreeCellDeck createDeck 1) ∧
    dealCards 1 = dealCards 1 :=
  ⟨(c3_theorem 1).1, (c3_theorem 1).2.2.2.2.2 1 rfl⟩

/-! ### Move predicates (claims C8, C9, C6) -/

/-- Every rank value is at least 1. -/
theorem getRankValue_pos (r : Rank) : 1 ≤ getRankValue r := by
  cases r <;> decide

/-- C8: `canMoveToTableau` accepts exactly the moves onto an empty column
or onto a top card one rank higher and of the opposite color, where red is
hearts/diamonds and black is clubs/spades. -/
theorem c8_theorem (card : Card) (targetColumn : List Card) :
    (canMoveToTableau card targetColumn = true ↔
      targetColumn = [] ∨
      ∃ top, targetColumn.getLast? = some top ∧
        getRankValue top.rank = getRankValue card.rank + 1 ∧
        getCardColor card.suit ≠ getCardColor top.suit) ∧
    (∀ su, (getCardColor su = Color.red ↔
              su = Suit.hearts ∨ su = Suit.diamonds) ∧
           (getCardColor su = Color.black ↔
              su = Suit.clubs ∨ su = Suit.spades)) := by
  constructor
  · unfold canMoveToTableau
    cases h : targetColumn.getLast? with
    | none =>
      have he : targetColumn = [] := List.getLast?_eq_none_iff.mp h
      simp [he]
    | some top =>
      have hne : targetColumn ≠ [] := by
        rintro rfl; simp at h
      have h1 : 1 ≤ getRankValue top.rank := getRankValue_pos top.rank
      simp only [h, hne, Bool.and_eq_true, beq_iff_eq, bne_iff_ne,
        false_or, Option.some.injEq]
      constructor
      · rintro ⟨h2, h3⟩
        exact ⟨top, rfl, by omega, h3⟩
      · rintro ⟨top2, rfl, h2, h3⟩
        exact ⟨by omega, h3⟩
  · intro su
    cases su <;> simp [getCardColor]

/-- C9: `canMoveToFoundation` accepts exactly an ace onto an empty pile, or
a card whose suit matches the pile's top card and whose rank value is one
above it. -/
theorem c9_theorem (card : Card) (foundation : List Card) :
    canMoveToFoundation card foundation = true ↔
      (foundation = [] ∧ card.rank = Rank.ace) ∨
      ∃ top, foundation.getLast? = some top ∧ top.suit = card.suit ∧
        getRankValue top.rank = getRankValue card.rank - 1 ∧
        getRankValue card.rank = getRankValue top.rank + 1 := by
  unfold canMoveToFoundation
  cases h : foundation.getLast? with
  | none =>
    have he : foundation = [] := List.getLast?_eq_none_iff.mp h
    simp [he]
  | some top =>
    have hne : foundation ≠ [] := by
      rintro rfl; simp at h
    simp only [h, hne, Bool.and_eq_true, beq_iff_eq, false_and, false_or,
      Option.some.injEq]
    constructor
    · rintro ⟨h2, h3⟩
      exact ⟨top, rfl, h2.symm, by omega, by omega⟩
    · rintro ⟨top2, rfl, h2, h3, h4⟩
      exact ⟨h2.symm, by omega⟩

/-- The run loop of `canMoveCardSequence` equals the pairwise adjacent
check. -/
theorem validRun_eq (l : List Card) : validRun l = specRun l := by
  induction l with
  | nil => rfl
  | cons a rest ih =>
    cases rest with
    | nil => rfl
    | cons b rest2 =>
      rw [validRun, ih]
      rfl

/-- C6, counterexample: with no empty free cell and exactly one empty
column, a valid two-card run fails `canMoveCardSequence` even though the
claim's capacity formula allows two cards whenever the destination is not
itself the empty column. -/
theorem c6_counterexample :
    canMoveCardSequence [mkCard .spades .five, mkCard .hearts .four] 0
        c6State = false ∧
    specCanMoveSeq [mkCard .spades .five, mkCard .hearts .four] 0
        c6State false = true := by
  decide

/-- C6, amended: `canMoveCardSequence` takes no destination; it always
discounts one empty column (`excludeTargetColumn = true`), i.e. it equals
the claim's predicate specialised to a destination that is an empty
column. -/
theorem c6_theorem (sourceColumn : List Card) (startIndex : Nat)
    (gameState : GameState) :
    canMoveCardSequence sourceColumn startIndex gameState =
      specCanMoveSeq sourceColumn startIndex gameState true := by
  unfold canMoveCardSequence specCanMoveSeq getMaxMovableCards
  simp only [validRun_eq]

/-! ### Facts about move application (claim C7) -/

/-- Foundation indices name distinct suits. -/
theorem suitOfIndex_inj (i j : Fin 4) (h : suitOfIndex i = suitOfIndex j) :
    i = j := by
  revert h
  revert i j
  decide

/-- Reading a foundation pile after replacing one. -/
theorem get_setPile (f : Foundations) (su su' : Suit) (pile : List Card) :
    (f.setPile su pile).get su' = if su' = su then pile else f.get su' := by
  cases su <;> cases su' <;>
    simp [Foundations.setPile, Foundations.get]

/-- Reading a list after a positional write. -/
theorem getD_set (l : List β) (i j : Nat) (a d : β) :
    (l.set i a).getD j d =
      if i = j ∧ i < l.length then a else l.getD j d := by
  rw [List.getD_eq_getElem?_getD, List.getD_eq_getElem?_getD, List.getElem?_set]
  rcases eq_or_ne i j with rfl | hne
  · by_cases hl : i < l.length
    · simp [hl]
    · simp [hl, List.getElem?_eq_none (Nat.le_of_not_lt hl)]
  · simp [hne]

/-- `removeTop` does not touch the bookkeeping fields. -/
theorem removeTop_meta (s : GameState) (l : Loc) :
    (removeTop s l).gameNumber = s.gameNumber ∧
    (removeTop s l).moveHistory = s.moveHistory ∧
    (removeTop s l).isWon = s.isWon := by
  cases l <;> exact ⟨rfl, rfl, rfl⟩

/-- `addCardTo` does not touch the bookkeeping fields. -/
theorem addCardTo_meta (s : GameState) (l : Loc) (c : Card) :
    (addCardTo s l c).gameNumber = s.gameNumber ∧
    (addCardTo s l c).moveHistory = s.moveHistory ∧
    (addCardTo s l c).isWon = s.isWon := by
  cases l <;> exact ⟨rfl, rfl, rfl⟩

/-- `removeTop` keeps the board shape. -/
theorem wellShaped_removeTop (s : GameState) (l : Loc) (h : wellShaped s) :
    wellShaped (removeTop s l) := by
  obtain ⟨h4, h8⟩ := h
  cases l <;>
    exact ⟨by simp [removeTop, h4], by simp [removeTop, h8]⟩

/-- `addCardTo` keeps the board shape. -/
theorem wellShaped_addCardTo (s : GameState) (l : Loc) (c : Card)
    (h : wellShaped s) : wellShaped (addCardTo s l c) := by
  obtain ⟨h4, h8⟩ := h
  cases l <;>
    exact ⟨by simp [addCardTo, addToFoundation, h4],
           by simp [addCardTo, addToFoundation, h8]⟩

/-- Removing the top of a location drops the last card of its pile. -/
theorem pileAt_removeTop_self (s : GameState) (l : Loc) :
    pileAt (removeTop s l) l = (pileAt s l).dropLast := by
  cases l with
  | freecell i =>
    show ((s.freeCells.set i.val none).getD i.val none).toList =
      ((s.freeCells.getD i.val none).toList).dropLast
    rw [getD_set]
    by_cases hl : i.val < s.freeCells.length
    · simp only [hl, and_true, if_pos rfl]
      cases s.freeCells.getD i.val none <;> rfl
    · rw [if_neg (by simp [hl]), List.getD_eq_default _ _ (Nat.le_of_not_lt hl)]
      rfl
  | tableau i =>
    show (s.tableau.set i.val ((s.tableau.getD i.val []).dropLast)).getD i.val [] =
      (s.tableau.getD i.val []).dropLast
    rw [getD_set]
    by_cases hl : i.val < s.tableau.length
    · simp [hl]
    · rw [if_neg (by simp [hl]), List.getD_eq_default _ _ (Nat.le_of_not_lt hl)]
      rfl
  | foundation i =>
    show (s.foundations.setPile (suitOfIndex i) _).get (suitOfIndex i) = _
    rw [get_setPile, if_pos rfl]
    rfl

/-- Removing the top of one location leaves every other pile unchanged. -/
theorem pileAt_removeTop_ne (s : GameState) (l0 l : Loc) (h : l ≠ l0) :
    pileAt (removeTop s l0) l = pileAt s l := by
  cases l0 with
  | freecell i =>
    cases l with
    | freecell j =>
      have hne : i ≠ j := fun he => h (by rw [he])
      show ((s.freeCells.set i.val none).getD j.val none).toList = _
      rw [getD_set, if_neg (by simp [Fin.val_ne_of_ne hne])]
      rfl
    | tableau j => rfl
    | foundation j => rfl
  | tableau i =>
    cases l with
    | tableau j =>
      have hne : i ≠ j := fun he => h (by rw [he])
      show (s.tableau.set i.val _).getD j.val [] = _
      rw [getD_set, if_neg (by simp [Fin.val_ne_of_ne hne])]
      rfl
    | freecell j => rfl
    | foundation j => rfl
  | foundation i =>
    cases l with
    | foundation j =>
      have hne : suitOfIndex j ≠ suitOfIndex i :=
        fun he => h (by rw [suitOfIndex_inj j i he])
      show (s.foundations.setPile (suitOfIndex i) _).get (suitOfIndex j) = _
      rw [get_setPile, if_neg hne]
      rfl
    | freecell j => rfl
    | tableau j => rfl

/-- Adding a card to a tableau column appends it (the board has 8
columns). -/
theorem pileAt_addCardTo_tableau (s : GameState) (i : Fin 8) (c : Card)
    (h8 : s.tableau.length = 8) :
    pileAt (addCardTo s (.tableau i) c) (.tableau i) =
      pileAt s (.tableau i) ++ [c] := by
  show (s.tableau.set i.val _).getD i.val [] = _
  rw [getD_set, if_pos ⟨rfl, by rw [h8]; exact i.isLt⟩]
  rfl

/-- Adding a card to a free cell makes it the singleton occupant (the board
has 4 cells). -/
theorem pileAt_addCardTo_freecell (s : GameState) (i : Fin 4) (c : Card)
    (h4 : s.freeCells.length = 4) :
    pileAt (addCardTo s (.freecell i) c) (.freecell i) = [c] := by
  show ((s.freeCells.set i.val (some c)).getD i.val none).toList = _
  rw [getD_set, if_pos ⟨rfl, by rw [h4]; exact i.isLt⟩]
  rfl

/-- Adding a card to a foundation appends it. -/
theorem pileAt_addCardTo_foundation (s : GameState) (i : Fin 4) (c : Card) :
    pileAt (addCardTo s (.foundation i) c) (.foundation i) =
      pileAt s (.foundation i) ++ [c] := by
  show (s.foundations.setPile (suitOfIndex i) _).get (suitOfIndex i) = _
  rw [get_setPile, if_pos rfl]
  rfl

/-- Adding a card to one location leaves every other pile unchanged. -/
theorem pileAt_addCardTo_ne (s : GameState) (l0 l : Loc) (c : Card)
    (h : l ≠ l0) : pileAt (addCardTo s l0 c) l = pileAt s l := by
  cases l0 with
  | freecell i =>
    cases l with
    | freecell j =>
      have hne : i ≠ j := fun he => h (by rw [he])
      show ((s.freeCells.set i.val (some c)).getD j.val none).toList = _
      rw [getD_set, if_neg (by simp [Fin.val_ne_of_ne hne])]
      rfl
    | tableau j => rfl
    | foundation j => rfl
  | tableau i =>
    cases l with
    | tableau j =>
      have hne : i ≠ j := fun he => h (by rw [he])
      show (s.tableau.set i.val _).getD j.val [] = _
      rw [getD_set, if_neg (by simp [Fin.val_ne_of_ne hne])]
      rfl
    | freecell j => rfl
    | foundation j => rfl
  | foundation i =>
    cases l with
    | foundation j =>
      have hne : suitOfIndex j ≠ suitOfIndex i :=
        fun he => h (by rw [suitOfIndex_inj j i he])
      show (s.foundations.setPile (suitOfIndex i) _).get (suitOfIndex j) = _
      rw [get_setPile, if_neg hne]
      rfl
    | freecell j => rfl
    | tableau j => rfl

/-- The top card reported by `topOf` is the last card of the pile. -/
theorem topOf_pileAt (s : GameState) (l : Loc) (c : Card)
    (h : topOf s l = some c) : (pileAt s l).getLast? = some c := by
  cases l with
  | freecell i =>
    have h2 : s.freeCells.getD i.val none = some c := h
    show ((s.freeCells.getD i.val none).toList).getLast? = some c
    rw [h2]
    rfl
  | tableau i => exact h
  | foundation i => exact h


/-- A tableau column never accepts its own top card (the rank comparison
fails). -/
theorem no_self_tableau (c : Card) (col : List Card)
    (htop : col.getLast? = some c) : canMoveToTableau c col = false := by
  unfold canMoveToTableau
  rw [htop]
  have h1 := getRankValue_pos c.rank
  have h2 : getRankValue c.rank ≠ getRankValue c.rank - 1 := by omega
  simp [h2]

/-- A foundation pile never accepts its own top card. -/
theorem no_self_foundation (c : Card) (pile : List Card)
    (htop : pile.getLast? = some c) : canMoveToFoundation c pile = false := by
  unfold canMoveToFoundation
  rw [htop]
  have h2 : getRankValue c.rank ≠ getRankValue c.rank + 1 := by omega
  simp [h2]

/-- Appending via `addCardTo` extends the destination pile, provided a
free-cell destination was empty. -/
theorem addCardTo_self_append (s : GameState) (l : Loc) (c : Card)
    (hws : wellShaped s)
    (hempty : ∀ i, l = Loc.freecell i → pileAt s l = []) :
    pileAt (addCardTo s l c) l = pileAt s l ++ [c] := by
  cases l with
  | tableau i => exact pileAt_addCardTo_tableau s i c hws.2
  | foundation i => exact pileAt_addCardTo_foundation s i c
  | freecell i =>
    rw [pileAt_addCardTo_freecell s i c hws.1, hempty i rfl]
    rfl

/-- The observable effect of a remove-then-add transfer between two
distinct locations. -/
theorem transfer_char (s : GameState) (fromLoc toLoc : Loc) (c : Card)
    (hws : wellShaped s) (hne : fromLoc ≠ toLoc)
    (hempty : ∀ i, toLoc = Loc.freecell i → pileAt s toLoc = []) :
    pileAt (addCardTo (removeTop s fromLoc) toLoc c) fromLoc =
      (pileAt s fromLoc).dropLast ∧
    pileAt (addCardTo (removeTop s fromLoc) toLoc c) toLoc =
      pileAt s toLoc ++ [c] ∧
    (∀ l, l ≠ fromLoc → l ≠ toLoc →
      pileAt (addCardTo (removeTop s fromLoc) toLoc c) l = pileAt s l) ∧
    (addCardTo (removeTop s fromLoc) toLoc c).gameNumber = s.gameNumber ∧
    (addCardTo (removeTop s fromLoc) toLoc c).moveHistory = s.moveHistory ∧
    (addCardTo (removeTop s fromLoc) toLoc c).isWon = s.isWon := by
  refine ⟨?_, ?_, ?_, ?_, ?_, ?_⟩
  · rw [pileAt_addCardTo_ne _ _ _ _ hne, pileAt_removeTop_self]
  · rw [addCardTo_self_append _ _ _ (wellShaped_removeTop s fromLoc hws)
      (fun i hi => by
        rw [pileAt_removeTop_ne _ _ _ (Ne.symm hne)]
        exact hempty i hi),
      pileAt_removeTop_ne _ _ _ (Ne.symm hne)]
  · intro l hl1 hl2
    rw [pileAt_addCardTo_ne _ _ _ _ hl2, pileAt_removeTop_ne _ _ _ hl1]
  · rw [(addCardTo_meta _ _ _).1, (removeTop_meta _ _).1]
  · rw [(addCardTo_meta _ _ _).2.1, (removeTop_meta _ _).2.1]
  · rw [(addCardTo_meta _ _ _).2.2, (removeTop_meta _ _).2.2]

/-- C7: move application is atomic and non-mutating.  `performMove` is a
pure total function, so the input state is never mutated and an invalid
move yields `none`, on which callers keep the input state; when it
succeeds, the result differs from the input in exactly two piles — the
source loses its top card, the destination gains it — and every other
pile, the game number, the history and the win flag are unchanged. -/
theorem c7_theorem (s : GameState) (fromLoc toLoc : Loc) (s' : GameState)
    (hws : wellShaped s) (h : performMove s fromLoc toLoc = some s') :
    ∃ c, topOf s fromLoc = some c ∧ fromLoc ≠ toLoc ∧
      pileAt s' fromLoc = (pileAt s fromLoc).dropLast ∧
      pileAt s' toLoc = pileAt s toLoc ++ [c] ∧
      (∀ l, l ≠ fromLoc → l ≠ toLoc → pileAt s' l = pileAt s l) ∧
      s'.gameNumber = s.gameNumber ∧ s'.moveHistory = s.moveHistory ∧
      s'.isWon = s.isWon := by
  unfold performMove at h
  cases htop : topOf s fromLoc with
  | none =>
    rw [htop] at h
    exact absurd h (by simp)
  | some c =>
    rw [htop] at h
    cases toLoc with
    | tableau j =>
      have h2 : (if canMoveToTableau c (s.tableau.getD j.val []) = true
          then some (addCardTo (removeTop s fromLoc) (Loc.tableau j) c)
          else none) = some s' := h
      by_cases hv : canMoveToTableau c (s.tableau.getD j.val []) = true
      · rw [if_pos hv] at h2
        obtain rfl := (Option.some.inj h2).symm
        have hne : fromLoc ≠ Loc.tableau j := by
          rintro rfl
          rw [no_self_tableau c _ htop] at hv
          exact Bool.false_ne_true hv
        exact ⟨c, rfl, hne,
          transfer_char s fromLoc (Loc.tableau j) c hws hne
            (fun i hi => by cases hi)⟩
      · rw [if_neg hv] at h2
        exact absurd h2 (by simp)
    | foundation j =>
      have h2 : (if canMoveToFoundation c (s.foundations.get (suitOfIndex j)) = true
          then some (addCardTo (removeTop s fromLoc) (Loc.foundation j) c)
          else none) = some s' := h
      by_cases hv :
          canMoveToFoundation c (s.foundations.get (suitOfIndex j)) = true
      · rw [if_pos hv] at h2
        obtain rfl := (Option.some.inj h2).symm
        have hne : fromLoc ≠ Loc.foundation j := by
          rintro rfl
          rw [no_self_foundation c _ htop] at hv
          exact Bool.false_ne_true hv
        exact ⟨c, rfl, hne,
          transfer_char s fromLoc (Loc.foundation j) c hws hne
            (fun i hi => by cases hi)⟩
      · rw [if_neg hv] at h2
        exact absurd h2 (by simp)
    | freecell j =>
      have h2 : (if (s.freeCells.getD j.val none).isNone = true
          then some (addCardTo (removeTop s fromLoc) (Loc.freecell j) c)
          else none) = some s' := h
      by_cases hv : (s.freeCells.getD j.val none).isNone = true
      · rw [if_pos hv] at h2
        obtain rfl := (Option.some.inj h2).symm
        have hcell : s.freeCells.getD j.val none = none :=
          Option.isNone_iff_eq_none.mp hv
        have hne : fromLoc ≠ Loc.freecell j := by
          rintro rfl
          have h3 : s.freeCells.getD j.val none = some c := htop
          rw [h3] at hcell
          cases hcell
        have hempty : ∀ i, Loc.freecell j = Loc.freecell i →
            pileAt s (Loc.freecell j) = [] := by
          intro i _
          show (s.freeCells.getD j.val none).toList = []
          rw [hcell]
          rfl
        exact ⟨c, rfl, hne,
          transfer_char s fromLoc (Loc.freecell j) c hws hne hempty⟩
      · rw [if_neg hv] at h2
        exact absurd h2 (by simp)

set_option maxRecDepth 400000 in
/-- C7 witness: the characterisation applied to the opening move of game 1
that parks the top card of column 1 in the first free cell. -/
theorem c7_witness :
    ((performMove (dealCards 1) (Loc.tableau 0) (Loc.freecell 0)).getD
        (dealCards 1)).isWon = (dealCards 1).isWon ∧
    ((performMove (dealCards 1) (Loc.tableau 0) (Loc.freecell 0)).getD
        (dealCards 1)).gameNumber = (dealCards 1).gameNumber := by
  obtain ⟨c, _, _, _, _, _, hnum, _, hwin⟩ :=
    c7_theorem (dealCards 1) (Loc.tableau 0) (Loc.freecell 0)
      ((performMove (dealCards 1) (Loc.tableau 0) (Loc.freecell 0)).getD
        (dealCards 1))
      ⟨rfl, rfl⟩ rfl
  exact ⟨hwin, hnum⟩

/-! ### Auto-play (claim C5) -/

/-- The free-cell loop finds the same first candidate as the specification
scan restricted to free cells. -/
theorem cellFind_eq (s : GameState) (cells : List (Option Card)) : ∀ i : Nat,
    ((List.enumFrom i cells).filterMap fun p =>
      match p.2 with
      | some c => some (AutoSrc.cell p.1, c)
      | none => none).find? (fun p => autoQualifies s p.2) =
    (cellFind s i cells).map (fun p => (AutoSrc.cell p.1, p.2)) := by
  induction cells with
  | nil => intro i; rfl
  | cons c? rest ih =>
    intro i
    cases c? with
    | none => exact ih (i + 1)
    | some card =>
      show List.find? (fun p => autoQualifies s p.2)
          ((AutoSrc.cell i, card) :: (List.enumFrom (i + 1) rest).filterMap _) =
        (if canMoveToFoundation card (s.foundations.get card.suit) &&
            isSafeToAutoMove s card
         then some (i, card)
         else cellFind s (i + 1) rest).map (fun p => (AutoSrc.cell p.1, p.2))
      cases hq : autoQualifies s card with
      | true =>
        rw [List.find?_cons_of_pos (p := fun q : AutoSrc × Card => autoQualifies s q.2) _ hq]
        rw [if_pos (show (canMoveToFoundation card (s.foundations.get card.suit)
          && isSafeToAutoMove s card) = true from hq)]
        rfl
      | false =>
        rw [List.find?_cons_of_neg (p := fun q : AutoSrc × Card => autoQualifies s q.2) _
          (by simp [hq])]
        rw [if_neg (show ¬ (canMoveToFoundation card (s.foundations.get card.suit)
          && isSafeToAutoMove s card) = true from by
            rw [show (canMoveToFoundation card (s.foundations.get card.suit)
              && isSafeToAutoMove s card) = autoQualifies s card from rfl, hq]
            simp)]
        exact ih (i + 1)

/-- The tableau loop finds the same first candidate as the specification
scan restricted to tableau columns. -/
theorem colFind_eq (s : GameState) (cols : List (List Card)) : ∀ i : Nat,
    ((List.enumFrom i cols).filterMap fun p =>
      (p.2.getLast?).map fun c => (AutoSrc.col p.1, c)).find?
        (fun p => autoQualifies s p.2) =
    (colFind s i cols).map (fun p => (AutoSrc.col p.1, p.2)) := by
  induction cols with
  | nil => intro i; rfl
  | cons col rest ih =>
    intro i
    have hcol : colFind s i (col :: rest) =
        match col.getLast? with
        | some card =>
          if canMoveToFoundation card (s.foundations.get card.suit) &&
              isSafeToAutoMove s card
          then some (i, card)
          else colFind s (i + 1) rest
        | none => colFind s (i + 1) rest := rfl
    rw [List.enumFrom_cons, List.filterMap_cons, hcol]
    cases hlast : col.getLast? with
    | none => exact ih (i + 1)
    | some card =>
      show List.find? (fun p => autoQualifies s p.2)
          ((AutoSrc.col i, card) :: (List.enumFrom (i + 1) rest).filterMap _) =
        (if canMoveToFoundation card (s.foundations.get card.suit) &&
            isSafeToAutoMove s card
         then some (i, card)
         else colFind s (i + 1) rest).map (fun p => (AutoSrc.col p.1, p.2))
      cases hq : autoQualifies s card with
      | true =>
        rw [List.find?_cons_of_pos (p := fun q : AutoSrc × Card => autoQualifies s q.2) _ hq]
        rw [if_pos (show (canMoveToFoundation card (s.foundations.get card.suit)
          && isSafeToAutoMove s card) = true from hq)]
        rfl
      | false =>
        rw [List.find?_cons_of_neg (p := fun q : AutoSrc × Card => autoQualifies s q.2) _
          (by simp [hq])]
        rw [if_neg (show ¬ (canMoveToFoundation card (s.foundations.get card.suit)
          && isSafeToAutoMove s card) = true from by
            rw [show (canMoveToFoundation card (s.foundations.get card.suit)
              && isSafeToAutoMove s card) = autoQualifies s card from rfl, hq]
            simp)]
        exact ih (i + 1)

/-- C5: the auto-play step promotes exactly the first card of the fixed
scan order (free cells, then tableau columns left to right) that is both a
legal foundation move and safe, returns the state unchanged when no card
qualifies, and never promotes a card whose rank exceeds the minimum
opposite-color foundation rank plus 2. -/
theorem c5_theorem (s : GameState) :
    tryAutoPlaySingleCard s =
      (match findAutoMove s with
       | none => s
       | some p => promote s p.1 p.2) ∧
    (∀ l c, findAutoMove s = some (l, c) →
      canMoveToFoundation c (s.foundations.get c.suit) = true ∧
      getRankValue c.rank = (s.foundations.get c.suit).length + 1 ∧
      getRankValue c.rank ≤ getMinOppositeColorRank s c.suit + 2) := by
  constructor
  · unfold findAutoMove autoCandidates
    rw [List.find?_append,
      show s.freeCells.enum = List.enumFrom 0 s.freeCells from rfl,
      show s.tableau.enum = List.enumFrom 0 s.tableau from rfl,
      cellFind_eq s s.freeCells 0, colFind_eq s s.tableau 0]
    unfold tryAutoPlaySingleCard
    cases cellFind s 0 s.freeCells with
    | some p => rfl
    | none =>
      cases colFind s 0 s.tableau with
      | some p => rfl
      | none => rfl
  · intro l c h
    have hq := List.find?_some h
    simp only [autoQualifies, Bool.and_eq_true, isSafeToAutoMove, beq_iff_eq,
      decide_eq_true_eq, MIN_GAME_NUMBER, AUTO_MOVE_SAFE_RANK_OFFSET] at hq
    exact ⟨hq.1, hq.2.1, hq.2.2⟩

/-- C5 witness: on a board whose only card is an ace of hearts in the
first free cell, the scan finds that ace and the safety bound holds. -/
theorem c5_witness :
    findAutoMove c5State = some (AutoSrc.cell 0, mkCard .hearts .ace) ∧
    canMoveToFoundation (mkCard .hearts .ace)
      (c5State.foundations.get (mkCard .hearts .ace).suit) = true ∧
    getRankValue (mkCard .hearts .ace).rank ≤
      getMinOppositeColorRank c5State (mkCard .hearts .ace).suit + 2 := by
  have h := (c5_theorem c5State).2 (AutoSrc.cell 0) (mkCard .hearts .ace)
    (by decide)
  exact ⟨by decide, h.1, h.2.2⟩

/-! ### Agreement of the two move implementations (claim C10) -/

/-- `performMove` unfolded at a tableau destination once the source's top
card is known. -/
theorem performMove_top_tableau (s : GameState) (fromLoc : Loc) (j : Fin 8)
    (c : Card) (h : topOf s fromLoc = some c) :
    performMove s fromLoc (.tableau j) =
      if canMoveToTableau c (s.tableau.getD j.val [])
      then some (addCardTo (removeTop s fromLoc) (.tableau j) c)
      else none := by
  unfold performMove
  rw [h]

/-- `performMove` unfolded at a free-cell destination once the source's top
card is known. -/
theorem performMove_top_freecell (s : GameState) (fromLoc : Loc) (j : Fin 4)
    (c : Card) (h : topOf s fromLoc = some c) :
    performMove s fromLoc (.freecell j) =
      if (s.freeCells.getD j.val none).isNone
      then some (addCardTo (removeTop s fromLoc) (.freecell j) c)
      else none := by
  unfold performMove
  rw [h]

/-- `performMove` unfolded at a foundation destination once the source's
top card is known. -/
theorem performMove_top_foundation (s : GameState) (fromLoc : Loc) (j : Fin 4)
    (c : Card) (h : topOf s fromLoc = some c) :
    performMove s fromLoc (.foundation j) =
      if canMoveToFoundation c (s.foundations.get (suitOfIndex j))
      then some (addCardTo (removeTop s fromLoc) (.foundation j) c)
      else none := by
  unfold performMove
  rw [h]

/-- C10, counterexample: with an ace occupying free cell 1 and free cell 2
empty, `performMove` moves the ace between the cells but `tryMove` performs
no update, so the two implementations disagree even though the claimed
moving card is the actual occupant of its source. -/
theorem c10_counterexample :
    topOf c5State (Loc.freecell 0) = some (mkCard .hearts .ace) ∧
    (performMove c5State (Loc.freecell 0) (Loc.freecell 1)).isSome = true ∧
    tryMove c5State (mkCard .hearts .ace) (Loc.freecell 0)
      (Loc.freecell 1) = none := by
  refine ⟨rfl, rfl, rfl⟩

/-- C10, amended: whenever the claimed moving card is the actual top card
or occupant of its source and the move is neither free cell to free cell
nor foundation to foundation, `tryMove` and `performMove` agree exactly —
`tryMove` updates to a state iff `performMove` returns it, and `tryMove`
performs no update iff `performMove` returns null.  On the two excluded
shapes `tryMove` never updates while `performMove` may move the card. -/
theorem c10_theorem (s : GameState) (c : Card) (fromLoc toLoc : Loc)
    (htop : topOf s fromLoc = some c)
    (hex1 : ∀ i j, ¬(fromLoc = Loc.freecell i ∧ toLoc = Loc.freecell j))
    (hex2 : ∀ i j, ¬(fromLoc = Loc.foundation i ∧ toLoc = Loc.foundation j)) :
    tryMove s c fromLoc toLoc = performMove s fromLoc toLoc := by
  cases toLoc with
  | tableau j =>
    rw [performMove_top_tableau s fromLoc j c htop]
    by_cases hv : canMoveToTableau c (s.tableau.getD j.val []) = true
    · rw [if_pos hv]
      cases fromLoc with
      | tableau i =>
        have hcol : (s.tableau.getD i.val []).getLast? = some c := htop
        rcases eq_or_ne i j with rfl | hij
        · rw [no_self_tableau c _ hcol] at hv
          cases hv
        · simp only [tryMove, hcol, hv, Option.map_some', beq_self_eq_true,
            if_true]
          rw [show addCardTo (removeTop s (Loc.tableau i)) (Loc.tableau j) c =
            { s with tableau := ((s.tableau.set i.val
                ((s.tableau.getD i.val []).dropLast)).set j.val
                ((s.tableau.set i.val
                  ((s.tableau.getD i.val []).dropLast)).getD j.val [] ++ [c])) }
            from rfl]
          rw [getD_set, if_neg (by simp [Fin.val_ne_of_ne hij])]
      | freecell i =>
        have hcell : s.freeCells.getD i.val none = some c := htop
        simp only [tryMove, hcell, hv, beq_self_eq_true, if_true]
        rfl
      | foundation i =>
        have hpile : (s.foundations.get (suitOfIndex i)).getLast? = some c :=
          htop
        simp only [tryMove, hpile, hv, Option.map_some', beq_self_eq_true,
          if_true]
        rfl
    · rw [if_neg hv]
      cases fromLoc with
      | tableau i => simp only [tryMove, hv, if_false, Bool.false_eq_true]
      | freecell i => simp only [tryMove, hv, if_false, Bool.false_eq_true]
      | foundation i => simp only [tryMove, hv, if_false, Bool.false_eq_true]
  | freecell j =>
    rw [performMove_top_freecell s fromLoc j c htop]
    by_cases hv : s.freeCells.getD j.val none = none
    · rw [if_pos (by rw [hv]; rfl)]
      cases fromLoc with
      | tableau i =>
        have hcol : (s.tableau.getD i.val []).getLast? = some c := htop
        simp only [tryMove, hcol, hv, Option.map_some', beq_self_eq_true,
          if_true]
        rfl
      | freecell i => exact absurd ⟨rfl, rfl⟩ (hex1 i j)
      | foundation i =>
        have hpile : (s.foundations.get (suitOfIndex i)).getLast? = some c :=
          htop
        simp only [tryMove, hpile, hv, Option.map_some', beq_self_eq_true,
          if_true]
        rfl
    · rw [if_neg (by simp only [Option.isNone_iff_eq_none]; exact hv)]
      cases fromLoc with
      | tableau i =>
        simp only [tryMove]
        rw [if_neg (by simp only [beq_iff_eq]; exact hv)]
      | freecell i => exact absurd ⟨rfl, rfl⟩ (hex1 i j)
      | foundation i =>
        simp only [tryMove]
        rw [if_neg (by simp only [beq_iff_eq]; exact hv)]
  | foundation j =>
    rw [performMove_top_foundation s fromLoc j c htop]
    by_cases hv : canMoveToFoundation c (s.foundations.get (suitOfIndex j)) =
        true
    · rw [if_pos hv]
      cases fromLoc with
      | tableau i =>
        have hcol : (s.tableau.getD i.val []).getLast? = some c := htop
        simp only [tryMove, hcol, hv, Option.map_some', beq_self_eq_true,
          if_true]
        rfl
      | freecell i =>
        have hcell : s.freeCells.getD i.val none = some c := htop
        simp only [tryMove, hcell, hv, beq_self_eq_true, if_true]
        rfl
      | foundation i => exact absurd ⟨rfl, rfl⟩ (hex2 i j)
    · rw [if_neg hv]
      cases fromLoc with
      | tableau i => simp only [tryMove, hv, if_false, Bool.false_eq_true]
      | freecell i => simp only [tryMove, hv, if_false, Bool.false_eq_true]
      | foundation i => exact absurd ⟨rfl, rfl⟩ (hex2 i j)

/-- C10 witness: the agreement applied to dropping the ace of hearts from
free cell 1 onto empty tableau column 1. -/
theorem c10_witness :
    tryMove c5State (mkCard .hearts .ace) (Loc.freecell 0) (Loc.tableau 0) =
      performMove c5State (Loc.freecell 0) (Loc.tableau 0) :=
  c10_theorem c5State (mkCard .hearts .ace) (Loc.freecell 0) (Loc.tableau 0)
    rfl (by intro i j h; cases h.2) (by intro i j h; cases h.1)


/-! ### Card conservation (claim C4) -/

/-- Clearing an occupied slot removes exactly that card from the
filterMap view. -/
theorem count_filterMap_set_none :
    ∀ (l : List (Option Card)) (i : Nat) (c : Card),
      l.get? i = some (some c) → ∀ x : Card,
      ((l.set i none).filterMap id).count x + (if c = x then 1 else 0) =
        (l.filterMap id).count x := by
  intro l
  induction l with
  | nil => intro i c h x; cases h
  | cons o rest ih =>
    intro i c h x
    cases i with
    | zero =>
      obtain rfl : o = some c := Option.some.inj h
      simp [List.count_cons]
    | succ n =>
      have h2 : rest.get? n = some (some c) := h
      cases o with
      | none =>
        simp only [List.set_cons_succ, List.filterMap_cons]
        exact ih n c h2 x
      | some a =>
        simp only [List.set_cons_succ, List.filterMap_cons]
        simp only [id, List.count_cons]
        have := ih n c h2 x
        omega

/-- Filling an empty slot adds exactly that card to the filterMap view. -/
theorem count_filterMap_set_some :
    ∀ (l : List (Option Card)) (i : Nat) (c : Card),
      l.get? i = some none → ∀ x : Card,
      ((l.set i (some c)).filterMap id).count x =
        (l.filterMap id).count x + (if c = x then 1 else 0) := by
  intro l
  induction l with
  | nil => intro i c h x; cases h
  | cons o rest ih =>
    intro i c h x
    cases i with
    | zero =>
      obtain rfl : o = none := Option.some.inj h
      simp [List.count_cons]
    | succ n =>
      have h2 : rest.get? n = some none := h
      cases o with
      | none =>
        simp only [List.set_cons_succ, List.filterMap_cons]
        exact ih n c h2 x
      | some a =>
        simp only [List.set_cons_succ, List.filterMap_cons]
        simp only [id, List.count_cons]
        have := ih n c h2 x
        omega

/-- Replacing one column changes the flattened count by the difference of
the columns. -/
theorem count_flatten_set :
    ∀ (t : List (List Card)) (i : Nat) (X : List Card) (x : Card),
      i < t.length →
      ((t.set i X).flatten).count x + (t.getD i []).count x =
        t.flatten.count x + X.count x := by
  intro t
  induction t with
  | nil => intro i X x h; cases h
  | cons col rest ih =>
    intro i X x h
    cases i with
    | zero => simp [List.count_append]; omega
    | succ n =>
      simp only [List.set_cons_succ, List.flatten_cons, List.count_append,
        List.getD_cons_succ]
      have := ih n X x (Nat.lt_of_succ_lt_succ h)
      omega

/-- Replacing one foundation pile changes the total foundation count by
the difference of the piles. -/
theorem count_setPile (f : Foundations) (su : Suit) (X : List Card)
    (x : Card) :
    ((f.setPile su X).hearts.count x + (f.setPile su X).diamonds.count x +
      (f.setPile su X).clubs.count x + (f.setPile su X).spades.count x) +
      (f.get su).count x =
    (f.hearts.count x + f.diamonds.count x + f.clubs.count x +
      f.spades.count x) + X.count x := by
  cases su <;> simp [Foundations.setPile, Foundations.get] <;> omega

/-- A list with a known last card splits as its front plus that card. -/
theorem eq_dropLast_append (l : List Card) (c : Card)
    (h : l.getLast? = some c) : l = l.dropLast ++ [c] := by
  cases l with
  | nil => cases h
  | cons a t =>
    have hne : (a :: t) ≠ [] := by simp
    rw [List.getLast?_eq_getLast _ hne] at h
    obtain rfl := Option.some.inj h
    exact (List.dropLast_append_getLast hne).symm


/-- Counting a single card. -/
theorem count_single (x c : Card) : List.count x [c] = if c = x then 1 else 0 := by
  by_cases h : c = x <;> simp [List.count_cons, h]

/-- An occupied slot is a genuine in-range entry. -/
theorem get?_of_getD_some (l : List (Option Card)) (i : Nat) (c : Card)
    (h : l.getD i none = some c) : l.get? i = some (some c) := by
  by_cases hl : i < l.length
  · rw [List.get?_eq_getElem?]
    rw [List.getD_eq_getElem?_getD] at h
    cases hg : l[i]? with
    | none => rw [hg] at h; cases h
    | some v =>
      rw [hg] at h
      simp only [Option.getD_some] at h
      rw [h]
  · rw [List.getD_eq_default _ _ (Nat.le_of_not_lt hl)] at h
    cases h

/-- Removing the top card of a location decreases the board count by
exactly that card. -/
theorem removeTop_count (s : GameState) (l : Loc) (c : Card)
    (htop : topOf s l = some c) (x : Card) :
    (stateCardList (removeTop s l)).count x + (if c = x then 1 else 0) =
      (stateCardList s).count x := by
  cases l with
  | freecell i =>
    have hcell : s.freeCells.getD i.val none = some c := htop
    have hseg := count_filterMap_set_none s.freeCells i.val c
      (get?_of_getD_some _ _ _ hcell) x
    simp only [stateCardList, removeTop, List.count_append]
    omega
  | tableau i =>
    have hcol : (s.tableau.getD i.val []).getLast? = some c := htop
    have hlt : i.val < s.tableau.length := by
      by_contra hn
      rw [List.getD_eq_default _ _ (Nat.le_of_not_lt hn)] at hcol
      cases hcol
    have hseg := count_flatten_set s.tableau i.val
      ((s.tableau.getD i.val []).dropLast) x hlt
    have hcount : (s.tableau.getD i.val []).count x =
        ((s.tableau.getD i.val []).dropLast).count x +
          (if c = x then 1 else 0) := by
      conv_lhs => rw [eq_dropLast_append _ _ hcol]
      rw [List.count_append, count_single]
    simp only [stateCardList, removeTop, List.count_append]
    omega
  | foundation i =>
    have hpile : (s.foundations.get (suitOfIndex i)).getLast? = some c := htop
    have hseg := count_setPile s.foundations (suitOfIndex i)
      ((s.foundations.get (suitOfIndex i)).dropLast) x
    have hcount : (s.foundations.get (suitOfIndex i)).count x =
        ((s.foundations.get (suitOfIndex i)).dropLast).count x +
          (if c = x then 1 else 0) := by
      conv_lhs => rw [eq_dropLast_append _ _ hpile]
      rw [List.count_append, count_single]
    simp only [stateCardList, removeTop, List.count_append]
    omega

/-- Adding a card to a location increases the board count by exactly that
card, provided a free-cell target is an in-range empty slot and a tableau
target is an in-range column. -/
theorem addCardTo_count (s : GameState) (l : Loc) (c : Card) (x : Card)
    (hok : match l with
      | Loc.freecell j => s.freeCells.get? j.val = some none
      | Loc.tableau j => j.val < s.tableau.length
      | Loc.foundation _ => True) :
    (stateCardList (addCardTo s l c)).count x =
      (stateCardList s).count x + (if c = x then 1 else 0) := by
  cases l with
  | freecell j =>
    have hseg := count_filterMap_set_some s.freeCells j.val c hok x
    simp only [stateCardList, addCardTo, List.count_append]
    omega
  | tableau j =>
    have hseg := count_flatten_set s.tableau j.val
      ((s.tableau.getD j.val []) ++ [c]) x hok
    have hx : ((s.tableau.getD j.val []) ++ [c]).count x =
        (s.tableau.getD j.val []).count x + (if c = x then 1 else 0) := by
      rw [List.count_append, count_single]
    simp only [stateCardList, addCardTo, List.count_append]
    omega
  | foundation j =>
    have hseg := count_setPile s.foundations (suitOfIndex j)
      ((s.foundations.get (suitOfIndex j)) ++ [c]) x
    have hx : ((s.foundations.get (suitOfIndex j)) ++ [c]).count x =
        (s.foundations.get (suitOfIndex j)).count x +
          (if c = x then 1 else 0) := by
      rw [List.count_append, count_single]
    simp only [stateCardList, addCardTo, addToFoundation, List.count_append]
    omega


/-! ### Foundation-pile legality (claim C4) -/

/-- The empty pile is legal. -/
theorem foundationOk_nil : foundationOk [] := by
  constructor
  · intro i h
    cases h
  · intro c1 h1
    cases h1

/-- Removing the top card keeps a pile legal. -/
theorem foundationOk_dropLast (pile : List Card) (h : foundationOk pile) :
    foundationOk pile.dropLast := by
  obtain ⟨hrank, hsuit⟩ := h
  constructor
  · intro i hi
    have hi2 : i < pile.length := by
      have := List.length_dropLast pile
      omega
    rw [List.get_eq_getElem, List.getElem_dropLast]
    have := hrank i hi2
    rw [List.get_eq_getElem] at this
    exact this
  · intro c1 h1 c2 h2
    exact hsuit c1 (List.dropLast_subset pile h1) c2 (List.dropLast_subset pile h2)

/-- Appending a card accepted by `canMoveToFoundation` keeps a pile
legal. -/
theorem foundationOk_append (pile : List Card) (c : Card)
    (hok : foundationOk pile) (hcan : canMoveToFoundation c pile = true) :
    foundationOk (pile ++ [c]) := by
  obtain ⟨hrank, hsuit⟩ := hok
  cases hlast : pile.getLast? with
  | none =>
    obtain rfl : pile = [] := List.getLast?_eq_none_iff.mp hlast
    have hace : (c.rank == Rank.ace) = true := hcan
    have hace2 : c.rank = Rank.ace := by simpa using hace
    constructor
    · intro i hi
      have h1 : i < 1 := by simpa using hi
      obtain rfl : i = 0 := by omega
      rw [List.get_eq_getElem]
      show getRankValue c.rank = 1
      rw [hace2]
      rfl
    · intro c1 h1 c2 h2
      simp only [List.nil_append, List.mem_singleton] at h1 h2
      rw [h1, h2]
  | some top =>
    have hcan2 : (c.suit == top.suit &&
        (getRankValue c.rank == getRankValue top.rank + 1)) = true := by
      unfold canMoveToFoundation at hcan
      rw [hlast] at hcan
      exact hcan
    rw [Bool.and_eq_true, beq_iff_eq, beq_iff_eq] at hcan2
    have hne : pile ≠ [] := by
      rintro rfl
      cases hlast
    have hlen : 0 < pile.length := List.length_pos.mpr hne
    have h0 : pile[pile.length - 1]? = some top := by
      rw [← List.getLast?_eq_getElem?]
      exact hlast
    rw [List.getElem?_eq_some] at h0
    obtain ⟨hl1, htopel⟩ := h0
    have htoprank : getRankValue top.rank = pile.length := by
      have := hrank (pile.length - 1) hl1
      rw [List.get_eq_getElem, htopel] at this
      omega
    have htopmem : top ∈ pile := htopel ▸ List.getElem_mem hl1
    constructor
    · intro i hi
      have hi2 : i < pile.length + 1 := by simpa using hi
      rw [List.get_eq_getElem]
      rcases Nat.lt_or_ge i pile.length with hlt | hge
      · rw [List.getElem_append_left hlt]
        have := hrank i hlt
        rw [List.get_eq_getElem] at this
        exact this
      · obtain rfl : i = pile.length := by omega
        rw [List.getElem_append_right (Nat.le_refl _)]
        simp only [Nat.sub_self]
        show getRankValue c.rank = pile.length + 1
        omega
    · intro c1 h1 c2 h2
      have key : ∀ y ∈ pile ++ [c], y.suit = top.suit := by
        intro y hy
        rcases List.mem_append.mp hy with hy1 | hy2
        · exact hsuit y hy1 top htopmem
        · rw [List.mem_singleton.mp hy2]
          exact hcan2.1
      rw [key c1 h1, key c2 h2]

/-- Suit/index round trip. -/
theorem suitOfIndex_indexOfSuit (su : Suit) : suitOfIndex (indexOfSuit su) = su := by
  cases su <;> rfl

/-- Index/suit round trip. -/
theorem indexOfSuit_suitOfIndex (j : Fin 4) : indexOfSuit (suitOfIndex j) = j := by
  revert j
  decide

/-- A foundation pile is the pile at its location. -/
theorem foundations_get_eq_pileAt (s : GameState) (su : Suit) :
    s.foundations.get su = pileAt s (Loc.foundation (indexOfSuit su)) := by
  cases su <;> rfl


/-- A remove-then-add transfer of the source's top card preserves the
invariant, provided a foundation destination accepts the card and a
free-cell destination is empty. -/
theorem transfer_wellFormed (s : GameState) (fromLoc toLoc : Loc) (c : Card)
    (hws : wellShaped s) (hwf : WellFormed s)
    (htop : topOf s fromLoc = some c)
    (hval : match toLoc with
      | Loc.foundation j =>
        canMoveToFoundation c (s.foundations.get (suitOfIndex j)) = true
      | Loc.tableau _ => True
      | Loc.freecell j => s.freeCells.getD j.val none = none) :
    WellFormed (addCardTo (removeTop s fromLoc) toLoc c) := by
  constructor
  · refine List.Perm.trans (List.perm_iff_count.mpr fun x => ?_) hwf.1
    have h1 := removeTop_count s fromLoc c htop x
    have h2 := addCardTo_count (removeTop s fromLoc) toLoc c x (by
      cases toLoc with
      | tableau j =>
        show j.val < (removeTop s fromLoc).tableau.length
        rw [(wellShaped_removeTop s fromLoc hws).2]
        exact j.isLt
      | foundation j => trivial
      | freecell j =>
        have hj4 : j.val < s.freeCells.length := by
          rw [hws.1]
          exact j.isLt
        have hvj : s.freeCells.getD j.val none = none := hval
        have hbase : s.freeCells.get? j.val = some none := by
          rw [List.get?_eq_getElem?, List.getElem?_eq_getElem hj4,
            ← List.getD_eq_getElem s.freeCells none hj4, hvj]
        cases fromLoc with
        | freecell i =>
          show (s.freeCells.set i.val none).get? j.val = some none
          rw [List.get?_eq_getElem?, List.getElem?_set]
          rcases eq_or_ne i.val j.val with he | hne
          · rw [if_pos he, if_pos (he ▸ hj4)]
          · rw [if_neg hne, ← List.get?_eq_getElem?]
            exact hbase
        | tableau i => exact hbase
        | foundation i => exact hbase)
    omega
  · intro su
    rw [foundations_get_eq_pileAt]
    cases toLoc with
    | tableau j =>
      rw [pileAt_addCardTo_ne _ _ _ _ (by simp)]
      by_cases hfrom : Loc.foundation (indexOfSuit su) = fromLoc
      · rw [← hfrom, pileAt_removeTop_self, ← foundations_get_eq_pileAt]
        exact foundationOk_dropLast _ (hwf.2 su)
      · rw [pileAt_removeTop_ne _ _ _ hfrom, ← foundations_get_eq_pileAt]
        exact hwf.2 su
    | freecell j =>
      rw [pileAt_addCardTo_ne _ _ _ _ (by simp)]
      by_cases hfrom : Loc.foundation (indexOfSuit su) = fromLoc
      · rw [← hfrom, pileAt_removeTop_self, ← foundations_get_eq_pileAt]
        exact foundationOk_dropLast _ (hwf.2 su)
      · rw [pileAt_removeTop_ne _ _ _ hfrom, ← foundations_get_eq_pileAt]
        exact hwf.2 su
    | foundation j =>
      have hval2 : canMoveToFoundation c (s.foundations.get (suitOfIndex j)) = true := hval
      by_cases hsu : suitOfIndex j = su
      · have hlsu : Loc.foundation (indexOfSuit su) = Loc.foundation j := by
          rw [← hsu, indexOfSuit_suitOfIndex]
        rw [hlsu, pileAt_addCardTo_foundation]
        have hfromne : fromLoc ≠ Loc.foundation j := by
          rintro rfl
          rw [no_self_foundation c _ htop] at hval2
          cases hval2
        rw [pileAt_removeTop_ne _ _ _ (Ne.symm hfromne)]
        exact foundationOk_append _ c (hwf.2 (suitOfIndex j)) hval2
      · have hne2 : Loc.foundation (indexOfSuit su) ≠ Loc.foundation j := by
          intro he
          apply hsu
          have h3 : indexOfSuit su = j := by
            injection he
          rw [← h3, suitOfIndex_indexOfSuit]
        rw [pileAt_addCardTo_ne _ _ _ _ hne2]
        by_cases hfrom : Loc.foundation (indexOfSuit su) = fromLoc
        · rw [← hfrom, pileAt_removeTop_self, ← foundations_get_eq_pileAt]
          exact foundationOk_dropLast _ (hwf.2 su)
        · rw [pileAt_removeTop_ne _ _ _ hfrom, ← foundations_get_eq_pileAt]
          exact hwf.2 su

/-- A successful `performMove` preserves the well-formedness invariant. -/
theorem performMove_wellFormed (s s' : GameState) (fromLoc toLoc : Loc)
    (hws : wellShaped s) (hwf : WellFormed s)
    (h : performMove s fromLoc toLoc = some s') : WellFormed s' := by
  cases htop : topOf s fromLoc with
  | none =>
    unfold performMove at h
    rw [htop] at h
    exact absurd h (by simp)
  | some c =>
    cases toLoc with
    | tableau j =>
      rw [performMove_top_tableau s fromLoc j c htop] at h
      by_cases hv : canMoveToTableau c (s.tableau.getD j.val []) = true
      · rw [if_pos hv] at h
        obtain rfl : addCardTo (removeTop s fromLoc) (Loc.tableau j) c = s' :=
          Option.some.inj h
        exact transfer_wellFormed s fromLoc (Loc.tableau j) c hws hwf htop trivial
      · rw [if_neg hv] at h
        cases h
    | freecell j =>
      rw [performMove_top_freecell s fromLoc j c htop] at h
      by_cases hv : s.freeCells.getD j.val none = none
      · rw [if_pos (by rw [hv]; rfl)] at h
        obtain rfl : addCardTo (removeTop s fromLoc) (Loc.freecell j) c = s' :=
          Option.some.inj h
        exact transfer_wellFormed s fromLoc (Loc.freecell j) c hws hwf htop hv
      · rw [if_neg (by simp only [Option.isNone_iff_eq_none]; exact hv)] at h
        cases h
    | foundation j =>
      rw [performMove_top_foundation s fromLoc j c htop] at h
      by_cases hv : canMoveToFoundation c (s.foundations.get (suitOfIndex j)) =
          true
      · rw [if_pos hv] at h
        obtain rfl : addCardTo (removeTop s fromLoc) (Loc.foundation j) c = s' :=
          Option.some.inj h
        exact transfer_wellFormed s fromLoc (Loc.foundation j) c hws hwf htop hv
      · rw [if_neg hv] at h
        cases h

/-- What a successful free-cell scan means: the found index is in range
(counting from the start index), the cell there holds the found card, and
the card passed the legality-and-safety test. -/
theorem cellFind_spec (s : GameState) (l : List (Option Card)) (k i : Nat)
    (card : Card) (h : cellFind s k l = some (i, card)) :
    k ≤ i ∧ i - k < l.length ∧ l.getD (i - k) none = some card ∧
      (canMoveToFoundation card (s.foundations.get card.suit) &&
        isSafeToAutoMove s card) = true := by
  induction l generalizing k with
  | nil => cases h
  | cons c? rest ih =>
    cases c? with
    | none =>
      have h2 : cellFind s (k + 1) rest = some (i, card) := h
      obtain ⟨hk, hlen, hget, hcond⟩ := ih (k + 1) h2
      refine ⟨by omega, by simp only [List.length_cons]; omega, ?_, hcond⟩
      have he : i - k = (i - (k + 1)) + 1 := by omega
      rw [he]
      exact hget
    | some c =>
      have h3 : (if (canMoveToFoundation c (s.foundations.get c.suit) &&
          isSafeToAutoMove s c) = true then some (k, c)
        else cellFind s (k + 1) rest) = some (i, card) := h
      by_cases hq : (canMoveToFoundation c (s.foundations.get c.suit) &&
          isSafeToAutoMove s c) = true
      · rw [if_pos hq] at h3
        obtain ⟨rfl, rfl⟩ : k = i ∧ c = card := by
          have h4 := Prod.mk.inj (Option.some.inj h3)
          exact ⟨h4.1, h4.2⟩
        exact ⟨Nat.le_refl _, by simp, by simp, hq⟩
      · rw [if_neg hq] at h3
        obtain ⟨hk, hlen, hget, hcond⟩ := ih (k + 1) h3
        refine ⟨by omega, by simp only [List.length_cons]; omega, ?_, hcond⟩
        have he : i - k = (i - (k + 1)) + 1 := by omega
        rw [he]
        exact hget

/-- What a successful tableau scan means: the found index is in range
(counting from the start index), the column there ends in the found card,
and the card passed the legality-and-safety test. -/
theorem colFind_spec (s : GameState) (l : List (List Card)) (k i : Nat)
    (card : Card) (h : colFind s k l = some (i, card)) :
    k ≤ i ∧ i - k < l.length ∧ (l.getD (i - k) []).getLast? = some card ∧
      (canMoveToFoundation card (s.foundations.get card.suit) &&
        isSafeToAutoMove s card) = true := by
  induction l generalizing k with
  | nil => cases h
  | cons col rest ih =>
    cases hlast : col.getLast? with
    | none =>
      have h2 : cellFind s (k + 1) ([] : List (Option Card)) = none := rfl
      have h3 : colFind s (k + 1) rest = some (i, card) := by
        have h4 : (match col.getLast? with
          | some c =>
            if canMoveToFoundation c (s.foundations.get c.suit) &&
                isSafeToAutoMove s c then some (k, c)
            else colFind s (k + 1) rest
          | none => colFind s (k + 1) rest) = some (i, card) := h
        rw [hlast] at h4
        exact h4
      obtain ⟨hk, hlen, hget, hcond⟩ := ih (k + 1) h3
      refine ⟨by omega, by simp only [List.length_cons]; omega, ?_, hcond⟩
      have he : i - k = (i - (k + 1)) + 1 := by omega
      rw [he]
      exact hget
    | some c =>
      have h4 : (if (canMoveToFoundation c (s.foundations.get c.suit) &&
          isSafeToAutoMove s c) = true then some (k, c)
        else colFind s (k + 1) rest) = some (i, card) := by
        have h5 : (match col.getLast? with
          | some c =>
            if canMoveToFoundation c (s.foundations.get c.suit) &&
                isSafeToAutoMove s c then some (k, c)
            else colFind s (k + 1) rest
          | none => colFind s (k + 1) rest) = some (i, card) := h
        rw [hlast] at h5
        exact h5
      by_cases hq : (canMoveToFoundation c (s.foundations.get c.suit) &&
          isSafeToAutoMove s c) = true
      · rw [if_pos hq] at h4
        obtain ⟨rfl, rfl⟩ : k = i ∧ c = card := by
          have h6 := Prod.mk.inj (Option.some.inj h4)
          exact ⟨h6.1, h6.2⟩
        exact ⟨Nat.le_refl _, by simp, by simpa using hlast, hq⟩
      · rw [if_neg hq] at h4
        obtain ⟨hk, hlen, hget, hcond⟩ := ih (k + 1) h4
        refine ⟨by omega, by simp only [List.length_cons]; omega, ?_, hcond⟩
        have he : i - k = (i - (k + 1)) + 1 := by omega
        rw [he]
        exact hget

/-- An auto-play step preserves the well-formedness invariant. -/
theorem tryAutoPlaySingleCard_wellFormed (s : GameState)
    (hws : wellShaped s) (hwf : WellFormed s) :
    WellFormed (tryAutoPlaySingleCard s) := by
  unfold tryAutoPlaySingleCard
  cases hcf : cellFind s 0 s.freeCells with
  | some p =>
    obtain ⟨i, card⟩ := p
    obtain ⟨-, hlen, hget, hcond⟩ := cellFind_spec s s.freeCells 0 i card hcf
    rw [Nat.sub_zero] at hlen hget
    have hi4 : i < 4 := by
      rw [hws.1] at hlen
      exact hlen
    show WellFormed (addToFoundation
      { s with freeCells := s.freeCells.set i none } card.suit card)
    have heq : addToFoundation
        { s with freeCells := s.freeCells.set i none } card.suit card =
        addCardTo (removeTop s (Loc.freecell ⟨i, hi4⟩))
          (Loc.foundation (indexOfSuit card.suit)) card := by
      show _ = addToFoundation
        { s with freeCells := s.freeCells.set i none }
        (suitOfIndex (indexOfSuit card.suit)) card
      rw [suitOfIndex_indexOfSuit]
    rw [heq]
    refine transfer_wellFormed s (Loc.freecell ⟨i, hi4⟩)
      (Loc.foundation (indexOfSuit card.suit)) card hws hwf hget ?_
    show canMoveToFoundation card
      (s.foundations.get (suitOfIndex (indexOfSuit card.suit))) = true
    rw [suitOfIndex_indexOfSuit]
    exact ((Bool.and_eq_true _ _).mp hcond).1
  | none =>
    cases hco : colFind s 0 s.tableau with
    | some p =>
      obtain ⟨i, card⟩ := p
      obtain ⟨-, hlen, hget, hcond⟩ := colFind_spec s s.tableau 0 i card hco
      rw [Nat.sub_zero] at hlen hget
      have hi8 : i < 8 := by
        rw [hws.2] at hlen
        exact hlen
      show WellFormed (addToFoundation
        { s with tableau := s.tableau.set i ((s.tableau.getD i []).dropLast) }
        card.suit card)
      have heq : addToFoundation
          { s with tableau := s.tableau.set i ((s.tableau.getD i []).dropLast) }
          card.suit card =
          addCardTo (removeTop s (Loc.tableau ⟨i, hi8⟩))
            (Loc.foundation (indexOfSuit card.suit)) card := by
        show _ = addToFoundation
          { s with tableau := s.tableau.set i ((s.tableau.getD i []).dropLast) }
          (suitOfIndex (indexOfSuit card.suit)) card
        rw [suitOfIndex_indexOfSuit]
      rw [heq]
      refine transfer_wellFormed s (Loc.tableau ⟨i, hi8⟩)
        (Loc.foundation (indexOfSuit card.suit)) card hws hwf hget ?_
      show canMoveToFoundation card
        (s.foundations.get (suitOfIndex (indexOfSuit card.suit))) = true
      rw [suitOfIndex_indexOfSuit]
      exact ((Bool.and_eq_true _ _).mp hcond).1
    | none => exact hwf

/-- Pushing a row of cards onto the columns keeps the number of columns. -/
theorem pushRow_length (t : List (List Card)) (cs : List Card) :
    (pushRow t cs).length = t.length := by
  induction t generalizing cs with
  | nil => cases cs <;> rfl
  | cons col t ih =>
    cases cs with
    | nil => rfl
    | cons c cs => simp only [pushRow, List.length_cons, ih]

/-- Pushing a row onto enough columns adds exactly those cards to the
board. -/
theorem pushRow_flatten_perm (t : List (List Card)) (cs : List Card)
    (h : cs.length ≤ t.length) :
    (pushRow t cs).flatten.Perm (t.flatten ++ cs) := by
  induction t generalizing cs with
  | nil =>
    cases cs with
    | nil => simp [pushRow]
    | cons c cs => simp at h
  | cons col t ih =>
    cases cs with
    | nil => simp [pushRow]
    | cons c cs =>
      show ((col ++ [c]) :: pushRow t cs).flatten.Perm
        ((col :: t).flatten ++ (c :: cs))
      simp only [List.flatten_cons]
      have h2 : cs.length ≤ t.length := by
        simp only [List.length_cons] at h
        omega
      refine (List.Perm.append_left (col ++ [c]) (ih cs h2)).trans ?_
      rw [List.append_assoc col [c], List.append_assoc col t.flatten]
      exact List.Perm.append_left col (@List.perm_middle _ c t.flatten cs).symm

/-- The dealing fold keeps the number of columns. -/
theorem dealFold_length (rows : List Nat) (t : List (List Card))
    (rest : List Card) :
    ((rows.foldl dealStep (t, rest)).1).length = t.length := by
  induction rows generalizing t rest with
  | nil => rfl
  | cons n rows ih =>
    have h1 := ih (pushRow t (rest.take n)) (rest.drop n)
    rw [pushRow_length] at h1
    exact h1

/-- The dealing fold hands out exactly the first `rows.sum` remaining
cards, provided every row fits on the columns. -/
theorem dealFold_flatten_perm (rows : List Nat) (t : List (List Card))
    (rest : List Card) (h : ∀ n ∈ rows, n ≤ t.length) :
    ((rows.foldl dealStep (t, rest)).1).flatten.Perm
      (t.flatten ++ rest.take rows.sum) := by
  induction rows generalizing t rest with
  | nil => simp
  | cons n rows ih =>
    have hn : n ≤ t.length := h n (List.mem_cons_self n rows)
    have h2 : ∀ m ∈ rows, m ≤ (pushRow t (rest.take n)).length := by
      rw [pushRow_length]
      intro m hm
      exact h m (List.mem_cons_of_mem n hm)
    have h3 := ih (pushRow t (rest.take n)) (rest.drop n) h2
    have h4 := pushRow_flatten_perm t (rest.take n)
      (by rw [List.length_take]; omega)
    refine h3.trans ?_
    refine (List.Perm.append_right _ h4).trans ?_
    rw [List.append_assoc, ← List.take_add, List.sum_cons]

/-- The dealing loop of `dealCards` lays out exactly the first 52 cards of
the shuffled deck. -/
theorem dealLoop_flatten_perm (d : List Card) :
    (dealLoop d).flatten.Perm (d.take 52) := by
  have h := dealFold_flatten_perm dealRows (List.replicate 8 []) d (by decide)
  have e : (List.replicate 8 ([] : List Card)).flatten ++ d.take dealRows.sum
      = d.take 52 := rfl
  exact h.trans (by rw [e])

/-- The dealing loop always yields 8 columns. -/
theorem dealLoop_length (d : List Card) : (dealLoop d).length = 8 := by
  simp only [dealLoop]
  exact dealFold_length dealRows (List.replicate 8 []) d

/-- Every deal is well shaped: 4 free cells and 8 tableau columns. -/
theorem dealCards_wellShaped (g : Nat) : wellShaped (dealCards g) := by
  simp only [wellShaped, dealCards]
  exact ⟨rfl, dealLoop_length _⟩

/-- Every deal is well formed: the board holds exactly the 52 cards of the
canonical deck and the (empty) foundations are legal. -/
theorem dealCards_wellFormed (g : Nat) : WellFormed (dealCards g) := by
  constructor
  · have hlen : (shuffleFreeCellDeck createDeck g).length = 52 := by
      rw [shuffleFreeCellDeck_length, createDeck_length]
    have hperm := dealLoop_flatten_perm (shuffleFreeCellDeck createDeck g)
    rw [List.take_of_length_le (le_of_eq hlen)] at hperm
    have e : stateCardList (dealCards g) =
        (dealLoop (shuffleFreeCellDeck createDeck g)).flatten := by
      simp [stateCardList, dealCards, emptyFoundations]
    rw [e]
    exact hperm.trans (shuffleFreeCellDeck_perm createDeck g)
  · intro su
    cases su <;> exact foundationOk_nil

/-- C4: every deal satisfies the well-formedness invariant — the 52 cards
of the canonical deck appear on the board exactly once (no duplication, no
loss) and every foundation pile is a contiguous ascending single-suit run
from the ace whose top card's rank equals the pile's length — and the
invariant is preserved by every transition on the application's 4-cell
8-column states: every successful `performMove` (a failed move returns
`none` and the caller keeps the unchanged, still well-formed state) and
every `tryAutoPlaySingleCard` step. -/
theorem c4_theorem :
    (∀ g : Nat, wellShaped (dealCards g) ∧ WellFormed (dealCards g)) ∧
    (∀ (s s' : GameState) (fromLoc toLoc : Loc), wellShaped s →
      WellFormed s → performMove s fromLoc toLoc = some s' →
      WellFormed s') ∧
    (∀ s : GameState, wellShaped s → WellFormed s →
      WellFormed (tryAutoPlaySingleCard s)) :=
  ⟨fun g => ⟨dealCards_wellShaped g, dealCards_wellFormed g⟩,
   fun s s' fromLoc toLoc hws hwf h =>
     performMove_wellFormed s s' fromLoc toLoc hws hwf h,
   fun s hws hwf => tryAutoPlaySingleCard_wellFormed s hws hwf⟩

set_option maxRecDepth 400000 in
/-- C4 witness: deal number 1 is well shaped and well formed, moving the
top card of the first column to the first free cell succeeds and keeps the
state well formed, and so does an auto-play step. -/
theorem c4_witness :
    wellShaped (dealCards 1) ∧ WellFormed (dealCards 1) ∧
    WellFormed ((performMove (dealCards 1) (Loc.tableau 0)
      (Loc.freecell 0)).getD (dealCards 1)) ∧
    WellFormed (tryAutoPlaySingleCard (dealCards 1)) :=
  ⟨(c4_theorem.1 1).1, (c4_theorem.1 1).2,
   c4_theorem.2.1 (dealCards 1)
     ((performMove (dealCards 1) (Loc.tableau 0) (Loc.freecell 0)).getD
       (dealCards 1)) (Loc.tableau 0) (Loc.freecell 0)
     (c4_theorem.1 1).1 (c4_theorem.1 1).2 rfl,
   c4_theorem.2.2 (dealCards 1) (c4_theorem.1 1).1 (c4_theorem.1 1).2⟩

end FreeCell
